import Mathlib

/-!
Verification of the secure matching engine in src/lib/matchingAlgorithm-secure.ts
(the keep-all-candidates variant with the load-balancing re-sort and the single
final rebalancing pass).

The external city-distance service (getDistanceScore from ./cityDistance, consumed
as a black box per the design document) is modelled as a function parameter
dscore : String → String → Int; the design document specifies it returns an
integer in [0, 100].  crypto.randomUUID is modelled as an entropy stream
uuid : Nat → String consumed at an explicit counter, so that facts about the
generated id fields can be stated.  JavaScript numbers are modelled as Int
(every quantity the engine computes is integral: the distance service returns
integers, so Math.round is the identity where it is applied to a score).
-/

namespace BeitHayal

/-! ## Data model (src/lib/supabase-secure.ts)

Only the fields read or written by the matching engine are modelled; the
PII fields (full_name, phone, ...) are never touched by it.  Optional /
nullable string fields are Option String; the code's JavaScript falsiness
tests treat both null/undefined and the empty string as missing, which the
embedding reproduces explicitly. -/

structure LocalStudent where
  contact_id : String
  gender : Option String
  city : Option String
  city_code : Option String
  region : Option String
  origin_country : Option String
  languages : Option String
  mother_tongue : Option String
  mother_tongue_code : Option String
  current_soldiers_count : Int
  is_scholarship_active : Bool
  max_soldiers : Int
  available_slots : Int
  volunteer_status : Option String
deriving DecidableEq

structure LocalSoldier where
  contact_id : String
  gender : Option String
  city : Option String
  city_code : Option String
  region : Option String
  origin_country : Option String
  mother_tongue : Option String
  mother_tongue_code : Option String
  language_preference : Option String
  volunteer_gender_preference : Option String
  soldier_status : Option String
  has_special_requests : Bool
deriving DecidableEq

structure MatchCriteria where
  language_match : Bool
  distance_score : Int
  gender_pref_match : Bool
  region_match : Bool
deriving DecidableEq

structure MatchCandidate where
  student : LocalStudent
  soldier : LocalSoldier
  score : Int
  criteria : MatchCriteria
deriving DecidableEq

structure EnrichedMatch where
  id : String
  student_external_id : String
  soldier_external_id : String
  confidence_score : Int
  match_rank : Nat
  match_criteria : MatchCriteria
  status : String
  student : LocalStudent
  soldier : LocalSoldier
deriving DecidableEq

/-! ## Scoring function -/

/-- Language family code table from checkLanguageMatch. -/
def languageFamilies : List (List String) :=
  [["RU", "UK", "BG", "HR", "PL"],
   ["FR", "ES", "IT", "PT", "RO"],
   ["HE", "AR"],
   ["DE", "NL", "DA"]]

/-- checkLanguageMatch: false when either code is missing or empty, true on
exact code equality or shared language family. -/
def checkLanguageMatch (studentLangCode soldierLangCode : Option String) : Bool :=
  match studentLangCode, soldierLangCode with
  | some s, some t =>
    if s = "" ∨ t = "" then false
    else if s = t then true
    else languageFamilies.any fun codes => codes.contains s && codes.contains t
  | _, _ => false

/-- checkGenderMatch: true when the soldier has no (or an indifferent)
preference; otherwise the student's gender must map to the preferred code. -/
def checkGenderMatch (studentGender soldierPref : Option String) : Bool :=
  match soldierPref with
  | none => true
  | some p =>
    if p = "" ∨ p = "לא חשוב" ∨ p = "any" then true
    else
      match studentGender with
      | none => false
      | some g =>
        if g = "" then false
        else
          let genderCode := if g = "זכר" then "M" else if g = "נקבה" then "F" else g
          let prefCode : Option String :=
            if p = "male" ∨ p = "מתנדב" then some "M"
            else if p = "female" ∨ p = "מתנדבת" then some "F"
            else none
          prefCode = some genderCode

/-- calculateSecureMatch: the 2x2 decision table over (gender match, language
match) applied to the external distance score, clamped below at 1.  The
source's Math.round is the identity here because the distance service returns
integers. -/
def calculateSecureMatch (dscore : String → String → Int)
    (student : LocalStudent) (soldier : LocalSoldier) : MatchCandidate :=
  let genderMatch := checkGenderMatch student.gender soldier.volunteer_gender_preference
  let languageMatch := checkLanguageMatch student.mother_tongue_code soldier.mother_tongue_code
  let distanceScore := dscore (student.city.getD "") (soldier.city.getD "")
  let finalScore : Int :=
    if genderMatch && languageMatch then distanceScore
    else if !genderMatch && languageMatch then 70 - (100 - distanceScore)
    else if genderMatch && !languageMatch then 60 - (100 - distanceScore)
    else 30 - (100 - distanceScore)
  { student := student
    soldier := soldier
    score := max 1 finalScore
    criteria :=
      { language_match := languageMatch
        distance_score := distanceScore
        gender_pref_match := genderMatch
        region_match := student.region == soldier.region } }

/-- Final-score table exactly as the design document words it, for the
refinement check of claim C2 (round is stated on the integer input, where it
is the identity). -/
def specFinalScore (genderMatch languageMatch : Bool) (d : Int) : Int :=
  let raw : Int :=
    if genderMatch ∧ languageMatch then d
    else if ¬genderMatch ∧ languageMatch then 70 - (100 - d)
    else if genderMatch ∧ ¬languageMatch then 60 - (100 - d)
    else 30 - (100 - d)
  max 1 raw

/-! ## Candidate generator -/

/-- Insertion-ordered map update, as a JavaScript Map behaves: replace in
place when the key exists, append otherwise. -/
def mapSet {α : Type} (m : List (String × α)) (k : String) (v : α) : List (String × α) :=
  if m.any (fun p => p.1 = k) then
    m.map (fun p => if p.1 = k then (k, v) else p)
  else
    m ++ [(k, v)]

/-- Comparator of the candidate sort in findAllSecureMatches: descending
score.  The JavaScript Array.sort is a stable sort; every stable sort agrees
on a given comparator and input, so it is modelled by insertion sort, which
the kernel can evaluate. -/
abbrev scoreDesc : MatchCandidate → MatchCandidate → Prop :=
  fun a b => b.score ≤ a.score

instance : IsTotal MatchCandidate scoreDesc := ⟨fun a b => le_total b.score a.score⟩

instance : IsTrans MatchCandidate scoreDesc := ⟨fun _ _ _ h1 h2 => le_trans h2 h1⟩

/-- findAllSecureMatches: for each soldier score every student, keep the
candidates with positive score, sort them by descending score, and store the
list under the soldier's contact id (no truncation in this variant). -/
def findAllSecureMatches (dscore : String → String → Int)
    (students : List LocalStudent) (soldiers : List LocalSoldier) :
    List (String × List MatchCandidate) :=
  soldiers.foldl
    (fun m soldier =>
      let candidates :=
        (students.map (fun student => calculateSecureMatch dscore student soldier)).filter
          (fun mc => 0 < mc.score)
      mapSet m soldier.contact_id (List.insertionSort scoreDesc candidates))
    []

/-! ## Allocator (optimizeSecureMatches)

The allocator threads three pieces of run-scoped state: the assignment list
built so far, the live per-student assignment counters (a JavaScript Map
initialized to 0 for every student and read through get(...) with a 0
default, hence a total function that starts constantly 0), and the position
in the uuid entropy stream. -/

structure OptState where
  result : List EnrichedMatch
  counts : String → Int
  nextId : Nat

/-- Comparator of the per-soldier load-balancing re-sort: fewer live
assignments first, ties broken by higher score. -/
abbrev candidateRel (counts : String → Int) : MatchCandidate → MatchCandidate → Prop :=
  fun a b =>
    counts a.student.contact_id < counts b.student.contact_id ∨
      (counts a.student.contact_id = counts b.student.contact_id ∧ b.score ≤ a.score)

instance (counts : String → Int) : IsTotal MatchCandidate (candidateRel counts) :=
  ⟨fun a b => by unfold candidateRel; omega⟩

instance (counts : String → Int) : IsTrans MatchCandidate (candidateRel counts) :=
  ⟨fun a b c h1 h2 => by unfold candidateRel at *; omega⟩

/-- Comparator of the soldier processing order: fewest candidate options first. -/
abbrev soldierOptionsRel : String × List MatchCandidate → String × List MatchCandidate → Prop :=
  fun a b => a.2.length ≤ b.2.length

instance : IsTotal (String × List MatchCandidate) soldierOptionsRel :=
  ⟨fun a b => le_total a.2.length b.2.length⟩

instance : IsTrans (String × List MatchCandidate) soldierOptionsRel :=
  ⟨fun _ _ _ h1 h2 => le_trans h1 h2⟩

/-- Construction of one EnrichedMatch record from a candidate, as in the
assignment loop body. -/
def mkMatch (uuid : Nat → String) (n : Nat) (rank : Nat) (c : MatchCandidate) :
    EnrichedMatch :=
  { id := uuid n
    student_external_id := c.student.contact_id
    soldier_external_id := c.soldier.contact_id
    confidence_score := c.score
    match_rank := rank
    match_criteria := c.criteria
    status := "suggested"
    student := c.student
    soldier := c.soldier }

/-- Pointwise bump of a live counter. -/
def bumpCount (counts : String → Int) (k : String) : String → Int :=
  fun id => if id = k then counts id + 1 else counts id

/-- The per-soldier assignment walk: take candidates in order, stop at two
assignments, skip a candidate whose student is already assigned to this
soldier, and increment the student's live counter only for a rank-1
assignment. -/
def assignUpToTwo (uuid : Nat → String) :
    List MatchCandidate → List EnrichedMatch → (String → Int) → Nat →
    List EnrichedMatch × (String → Int) × Nat
  | [], assigned, counts, n => (assigned, counts, n)
  | c :: rest, assigned, counts, n =>
    if 2 ≤ assigned.length then (assigned, counts, n)
    else if assigned.any (fun m => m.student_external_id = c.student.contact_id) then
      assignUpToTwo uuid rest assigned counts n
    else
      let rank := assigned.length + 1
      let m := mkMatch uuid n rank c
      let counts' := if rank = 1 then bumpCount counts c.student.contact_id else counts
      assignUpToTwo uuid rest (assigned ++ [m]) counts' (n + 1)

/-- Body of the main allocation loop for one soldier entry: skip soldiers with
no candidates, re-sort the candidates with the live counters, assign up to
two. -/
def processSoldier (uuid : Nat → String) (st : OptState)
    (entry : String × List MatchCandidate) : OptState :=
  let candidates := entry.2
  if candidates.isEmpty then st
  else
    let sortedCandidates := List.insertionSort (candidateRel st.counts) candidates
    let out := assignUpToTwo uuid sortedCandidates [] st.counts st.nextId
    { result := st.result ++ out.1, counts := out.2.1, nextId := out.2.2 }

/-- The main allocation loop of optimizeSecureMatches: soldiers in ascending
order of candidate-list length, live counters starting at zero. -/
def optimizeMainLoop (uuid : Nat → String)
    (matchesBySoldier : List (String × List MatchCandidate))
    (_students : List LocalStudent) : OptState :=
  let soldiersWithOptions := List.insertionSort soldierOptionsRel matchesBySoldier
  soldiersWithOptions.foldl (processSoldier uuid)
    { result := [], counts := fun _ => 0, nextId := 0 }

/-- The scan of the final pass: walk the assignment list, remember the index
of the rank-2 slot whose holder has the strictly largest live count seen so
far (initial best index -1, initial best overload 0). -/
def bestSwapScan (counts : String → Int) :
    List EnrichedMatch → Nat → Int → Int → Int × Int
  | [], _, bestIdx, bestOverload => (bestIdx, bestOverload)
  | m :: rest, i, bestIdx, bestOverload =>
    if m.match_rank ≠ 2 then bestSwapScan counts rest (i + 1) bestIdx bestOverload
    else
      let assignedCount := counts m.student_external_id
      if bestOverload < assignedCount then
        bestSwapScan counts rest (i + 1) (Int.ofNat i) assignedCount
      else bestSwapScan counts rest (i + 1) bestIdx bestOverload

/-- One iteration of the final pass for one unused student: find the rank-2
slot held by the most-overloaded student; when that student's live count
exceeds 1, replace the slot with a freshly scored match for the unused
student (same soldier, rank 2) and bump the unused student's counter. -/
def rebalanceStep (dscore : String → String → Int) (uuid : Nat → String)
    (st : OptState) (unusedStudent : LocalStudent) : OptState :=
  let scan := bestSwapScan st.counts st.result 0 (-1) 0
  let bestSwapIdx := scan.1
  let bestOverload := scan.2
  if 0 ≤ bestSwapIdx ∧ 1 < bestOverload then
    match st.result[bestSwapIdx.toNat]? with
    | none => st
    | some oldMatch =>
      let soldier := oldMatch.soldier
      let soldierArg : LocalSoldier :=
        { contact_id := oldMatch.soldier_external_id
          gender := soldier.gender
          city := soldier.city
          city_code := soldier.city_code
          region := soldier.region
          origin_country := soldier.origin_country
          mother_tongue := soldier.mother_tongue
          mother_tongue_code := soldier.mother_tongue_code
          language_preference := soldier.language_preference
          volunteer_gender_preference := soldier.volunteer_gender_preference
          soldier_status := soldier.soldier_status
          has_special_requests := soldier.has_special_requests }
      let newCandidate := calculateSecureMatch dscore unusedStudent soldierArg
      let newMatch : EnrichedMatch :=
        { id := uuid st.nextId
          student_external_id := unusedStudent.contact_id
          soldier_external_id := oldMatch.soldier_external_id
          confidence_score := newCandidate.score
          match_rank := 2
          match_criteria := newCandidate.criteria
          status := "suggested"
          student := unusedStudent
          soldier := soldier }
      { result := st.result.set bestSwapIdx.toNat newMatch
        counts := bumpCount st.counts unusedStudent.contact_id
        nextId := st.nextId + 1 }
  else st

/-- The final pass of optimizeSecureMatches: one sweep over the students that
hold no assignment, each attempting a single swap. -/
def optimizeFinalPass (dscore : String → String → Int) (uuid : Nat → String)
    (students : List LocalStudent) (st : OptState) : OptState :=
  let usedStudentIds := st.result.map (fun m => m.student_external_id)
  let unusedStudents := students.filter (fun s => !usedStudentIds.contains s.contact_id)
  unusedStudents.foldl (rebalanceStep dscore uuid) st

/-- optimizeSecureMatches: the main loop followed by the single final pass. -/
def optimizeSecureMatches (dscore : String → String → Int) (uuid : Nat → String)
    (matchesBySoldier : List (String × List MatchCandidate))
    (students : List LocalStudent) : List EnrichedMatch :=
  (optimizeFinalPass dscore uuid students
    (optimizeMainLoop uuid matchesBySoldier students)).result

/-! ## Summary and entry point -/

structure MatchingSummary where
  totalStudents : Int
  totalSoldiers : Int
  totalMatches : Int
  soldiersWithTwoMatches : Int
  soldiersWithOneMatch : Int
  soldiersWithNoMatch : Int
  studentsUsed : Int
  studentsNotUsed : Int
  avgScore : Int
  highScoreMatches : Int
  mediumScoreMatches : Int
  lowScoreMatches : Int
deriving DecidableEq

/-- Insertion-ordered tally bump, as the Map-based per-soldier match count. -/
def bumpTally (m : List (String × Int)) (k : String) : List (String × Int) :=
  if m.any (fun p => p.1 = k) then
    m.map (fun p => if p.1 = k then (p.1, p.2 + 1) else p)
  else m ++ [(k, 1)]

/-- Per-soldier match counts of an assignment list, in first-seen order. -/
def tallyBySoldier (ms : List EnrichedMatch) : List (String × Int) :=
  ms.foldl (fun t m => bumpTally t m.soldier_external_id) []

/-- Comparator of the final presentation sort: descending confidence score. -/
abbrev confidenceDesc : EnrichedMatch → EnrichedMatch → Prop :=
  fun a b => b.confidence_score ≤ a.confidence_score

instance : IsTotal EnrichedMatch confidenceDesc :=
  ⟨fun a b => le_total b.confidence_score a.confidence_score⟩

instance : IsTrans EnrichedMatch confidenceDesc := ⟨fun _ _ _ h1 h2 => le_trans h2 h1⟩

/-- Math.round of the rational a / b for positive b, used for the average
score. -/
def jsRoundDiv (a b : Int) : Int := (2 * a + b).fdiv (2 * b)

/-- runSecureMatchingAlgorithm: candidate generation, allocation, the final
presentation sort, and the summary fold. -/
def runSecureMatchingAlgorithm (dscore : String → String → Int) (uuid : Nat → String)
    (students : List LocalStudent) (soldiers : List LocalSoldier) :
    List EnrichedMatch × MatchingSummary :=
  let allMatches := findAllSecureMatches dscore students soldiers
  let optimizedMatches :=
    List.insertionSort confidenceDesc (optimizeSecureMatches dscore uuid allMatches students)
  let tally := tallyBySoldier optimizedMatches
  let soldiersWithTwo : Int := ((tally.map (fun p => p.2)).filter (fun c => 2 ≤ c)).length
  let soldiersWithOne : Int := ((tally.map (fun p => p.2)).filter (fun c => c = 1)).length
  let soldiersWithNone : Int := (soldiers.length : Int) - (tally.length : Int)
  let usedCount : Int := ((optimizedMatches.map (fun m => m.student_external_id)).dedup.length : Int)
  let totalScore : Int := (optimizedMatches.map (fun m => m.confidence_score)).foldl (· + ·) 0
  let summary : MatchingSummary :=
    { totalStudents := (students.length : Int)
      totalSoldiers := (soldiers.length : Int)
      totalMatches := (optimizedMatches.length : Int)
      soldiersWithTwoMatches := soldiersWithTwo
      soldiersWithOneMatch := soldiersWithOne
      soldiersWithNoMatch := soldiersWithNone
      studentsUsed := usedCount
      studentsNotUsed := (students.length : Int) - usedCount
      avgScore := if 0 < optimizedMatches.length then
          jsRoundDiv totalScore (optimizedMatches.length : Int) else 0
      highScoreMatches := ((optimizedMatches.filter (fun m => 70 ≤ m.confidence_score)).length : Int)
      mediumScoreMatches := ((optimizedMatches.filter
        (fun m => 30 ≤ m.confidence_score ∧ m.confidence_score < 70)).length : Int)
      lowScoreMatches := ((optimizedMatches.filter (fun m => m.confidence_score < 30)).length : Int) }
  (optimizedMatches, summary)

/-! ## Basic facts about the scoring function -/

/-- Every computed score is at least 1 (the floor applied by the scoring
table). -/
theorem calculateSecureMatch_score_ge_one (dscore : String → String → Int)
    (student : LocalStudent) (soldier : LocalSoldier) :
    1 ≤ (calculateSecureMatch dscore student soldier).score :=
  le_max_left _ _

/-- Concrete records used to instantiate theorems with hypotheses. -/
def wStudent : LocalStudent :=
  { contact_id := "stu-1", gender := some "F", city := some "cityX", city_code := none,
    region := some "center", origin_country := none, languages := none,
    mother_tongue := none, mother_tongue_code := some "HE",
    current_soldiers_count := 0, is_scholarship_active := false, max_soldiers := 4,
    available_slots := 4, volunteer_status := none }

def wStudent2 : LocalStudent :=
  { wStudent with contact_id := "stu-2", gender := some "M", mother_tongue_code := some "RU" }

def wSoldier : LocalSoldier :=
  { contact_id := "sol-1", gender := some "M", city := some "cityX", city_code := none,
    region := some "center", origin_country := none, mother_tongue := none,
    mother_tongue_code := some "HE", language_preference := none,
    volunteer_gender_preference := some "female", soldier_status := none,
    has_special_requests := false }

/-- Constant distance service used by witnesses (the neutral score 50). -/
def wDscore : String → String → Int := fun _ _ => 50

/-- Entropy streams used by witnesses and counterexamples. -/
def wUuidA : Nat → String := fun _ => "uuid-A"

def wUuidB : Nat → String := fun _ => "uuid-B"

/-- C2: the final score of calculateSecureMatch is exactly the 2x2 decision
table over (gender match, language match) applied to the distance score —
both true gives d, gender false and language true gives 70 - (100 - d),
gender true and language false gives 60 - (100 - d), both false gives
30 - (100 - d) — rounded (the identity on these integer inputs) and clamped
below at 1. -/
theorem claim_C2_score_decision_table (dscore : String → String → Int)
    (student : LocalStudent) (soldier : LocalSoldier) :
    (calculateSecureMatch dscore student soldier).score =
      specFinalScore
        (checkGenderMatch student.gender soldier.volunteer_gender_preference)
        (checkLanguageMatch student.mother_tongue_code soldier.mother_tongue_code)
        (dscore (student.city.getD "") (soldier.city.getD "")) := by
  cases hg : checkGenderMatch student.gender soldier.volunteer_gender_preference <;>
    cases hl : checkLanguageMatch student.mother_tongue_code soldier.mother_tongue_code <;>
      simp [calculateSecureMatch, specFinalScore, hg, hl]

/-- C3: when the external distance score always lies in [0, 100], every
computed score lies in [1, 100] — never 0, never negative, never above 100. -/
theorem claim_C3_score_in_range (dscore : String → String → Int)
    (h : ∀ a b, 0 ≤ dscore a b ∧ dscore a b ≤ 100)
    (student : LocalStudent) (soldier : LocalSoldier) :
    1 ≤ (calculateSecureMatch dscore student soldier).score ∧
      (calculateSecureMatch dscore student soldier).score ≤ 100 := by
  obtain ⟨h0, h100⟩ := h (student.city.getD "") (soldier.city.getD "")
  refine ⟨calculateSecureMatch_score_ge_one dscore student soldier, ?_⟩
  cases hg : checkGenderMatch student.gender soldier.volunteer_gender_preference <;>
    cases hl : checkLanguageMatch student.mother_tongue_code soldier.mother_tongue_code <;>
      simp [calculateSecureMatch, hg, hl] <;> omega

/-- Witness for C3 at a concrete pair and the constant neutral distance
service. -/
theorem claim_C3_score_in_range_witness :
    1 ≤ (calculateSecureMatch wDscore wStudent wSoldier).score ∧
      (calculateSecureMatch wDscore wStudent wSoldier).score ≤ 100 :=
  claim_C3_score_in_range wDscore (fun _ _ => by constructor <;> norm_num [wDscore])
    wStudent wSoldier

/-! ## Structure of the candidate map -/

theorem mem_mapSet {α : Type} {m : List (String × α)} {k : String} {v : α}
    {e : String × α} :
    e ∈ mapSet m k v ↔ e = (k, v) ∨ (e ∈ m ∧ e.1 ≠ k) := by
  unfold mapSet
  split
  · next h =>
    simp only [List.mem_map]
    constructor
    · rintro ⟨q, hq, rfl⟩
      by_cases hk : q.1 = k
      · simp [hk]
      · right
        simpa [hk] using hq
    · rintro (rfl | ⟨he, hne⟩)
      · obtain ⟨q, hq, hqk⟩ := List.any_eq_true.mp h
        exact ⟨q, hq, by simp [of_decide_eq_true hqk]⟩
      · exact ⟨e, he, by simp [hne]⟩
  · next h =>
    simp only [List.mem_append, List.mem_singleton]
    constructor
    · rintro (he | rfl)
      · right
        refine ⟨he, fun hk => h ?_⟩
        exact List.any_eq_true.mpr ⟨e, he, decide_eq_true hk⟩
      · exact Or.inl rfl
    · rintro (rfl | ⟨he, _⟩)
      · exact Or.inr rfl
      · exact Or.inl he

theorem map_fst_mapSet {α : Type} (m : List (String × α)) (k : String) (v : α) :
    (mapSet m k v).map Prod.fst =
      if m.any (fun p => p.1 = k) then m.map Prod.fst else m.map Prod.fst ++ [k] := by
  unfold mapSet
  split
  · next h =>
    simp only [List.map_map]
    exact List.map_congr_left fun p _ => by
      by_cases hk : p.1 = k <;> simp [hk]
  · simp

theorem nodup_map_fst_mapSet {α : Type} {m : List (String × α)} {k : String} {v : α}
    (h : (m.map Prod.fst).Nodup) : ((mapSet m k v).map Prod.fst).Nodup := by
  rw [map_fst_mapSet]
  split
  · exact h
  · next hany =>
    rw [List.nodup_append]
    refine ⟨h, List.nodup_singleton k, ?_⟩
    intro a ha hb
    rw [List.mem_singleton] at hb
    subst hb
    obtain ⟨p, hp, rfl⟩ := List.mem_map.mp ha
    exact hany (List.any_eq_true.mpr ⟨p, hp, decide_eq_true rfl⟩)

theorem mem_keys_mapSet {α : Type} {m : List (String × α)} {k k' : String} {v : α}
    (h : k' ∈ m.map Prod.fst) : k' ∈ (mapSet m k v).map Prod.fst := by
  rw [map_fst_mapSet]
  split
  · exact h
  · exact List.mem_append_left _ h

theorem self_mem_keys_mapSet {α : Type} (m : List (String × α)) (k : String) (v : α) :
    k ∈ (mapSet m k v).map Prod.fst := by
  rw [map_fst_mapSet]
  split
  · next h =>
    obtain ⟨p, hp, hpk⟩ := List.any_eq_true.mp h
    rw [← of_decide_eq_true hpk]
    exact List.mem_map_of_mem Prod.fst hp
  · exact List.mem_append_right _ (List.mem_singleton.mpr rfl)

/-- The sorted candidate list findAllSecureMatches computes for one soldier. -/
def soldierCandidates (dscore : String → String → Int)
    (students : List LocalStudent) (soldier : LocalSoldier) : List MatchCandidate :=
  ((students.map (fun student => calculateSecureMatch dscore student soldier)).filter
    (fun mc => 0 < mc.score)).insertionSort scoreDesc

theorem findAll_foldl_mem (dscore : String → String → Int) (students : List LocalStudent) :
    ∀ (sos : List LocalSoldier) (acc : List (String × List MatchCandidate))
      (e : String × List MatchCandidate),
      e ∈ sos.foldl
        (fun m soldier =>
          let candidates :=
            (students.map (fun student => calculateSecureMatch dscore student soldier)).filter
              (fun mc => 0 < mc.score)
          mapSet m soldier.contact_id (List.insertionSort scoreDesc candidates)) acc →
      e ∈ acc ∨ ∃ so ∈ sos, e.1 = so.contact_id ∧ e.2 = soldierCandidates dscore students so
  | [], acc, e, he => Or.inl he
  | so :: rest, acc, e, he => by
    rcases findAll_foldl_mem dscore students rest _ e he with hacc | ⟨so', hso', h1, h2⟩
    · rcases mem_mapSet.mp hacc with rfl | ⟨hmem, _⟩
      · exact Or.inr ⟨so, List.mem_cons_self so rest, rfl, rfl⟩
      · exact Or.inl hmem
    · exact Or.inr ⟨so', List.mem_cons_of_mem so hso', h1, h2⟩

theorem findAll_mem (dscore : String → String → Int) (students : List LocalStudent)
    (soldiers : List LocalSoldier) {e : String × List MatchCandidate}
    (he : e ∈ findAllSecureMatches dscore students soldiers) :
    ∃ so ∈ soldiers, e.1 = so.contact_id ∧ e.2 = soldierCandidates dscore students so := by
  rcases findAll_foldl_mem dscore students soldiers [] e he with h | h
  · cases h
  · exact h

theorem findAll_keys_nodup (dscore : String → String → Int) (students : List LocalStudent)
    (soldiers : List LocalSoldier) :
    ((findAllSecureMatches dscore students soldiers).map Prod.fst).Nodup := by
  suffices h : ∀ (sos : List LocalSoldier) (acc : List (String × List MatchCandidate)),
      (acc.map Prod.fst).Nodup →
      ((sos.foldl
        (fun m soldier =>
          let candidates :=
            (students.map (fun student => calculateSecureMatch dscore student soldier)).filter
              (fun mc => 0 < mc.score)
          mapSet m soldier.contact_id (List.insertionSort scoreDesc candidates)) acc).map Prod.fst).Nodup by
    exact h soldiers [] List.nodup_nil
  intro sos
  induction sos with
  | nil => exact fun acc h => h
  | cons so rest ih => exact fun acc h => ih _ (nodup_map_fst_mapSet h)

theorem findAll_keys_complete (dscore : String → String → Int) (students : List LocalStudent)
    (soldiers : List LocalSoldier) {so : LocalSoldier} (hso : so ∈ soldiers) :
    so.contact_id ∈ (findAllSecureMatches dscore students soldiers).map Prod.fst := by
  suffices h : ∀ (sos : List LocalSoldier) (acc : List (String × List MatchCandidate)),
      (so ∈ sos ∨ so.contact_id ∈ acc.map Prod.fst) →
      so.contact_id ∈ (sos.foldl
        (fun m soldier =>
          let candidates :=
            (students.map (fun student => calculateSecureMatch dscore student soldier)).filter
              (fun mc => 0 < mc.score)
          mapSet m soldier.contact_id (List.insertionSort scoreDesc candidates)) acc).map Prod.fst by
    exact h soldiers [] (Or.inl hso)
  intro sos
  induction sos with
  | nil =>
    intro acc h
    rcases h with h | h
    · cases h
    · exact h
  | cons so' rest ih =>
    intro acc h
    rcases h with h | h
    · rcases List.mem_cons.mp h with rfl | hmem
      · exact ih _ (Or.inr (self_mem_keys_mapSet _ _ _))
      · exact ih _ (Or.inl hmem)
    · exact ih _ (Or.inr (mem_keys_mapSet h))

/-- All candidates survive the positive-score filter, thanks to the floor of 1. -/
theorem filter_score_pos_eq_self (dscore : String → String → Int)
    (students : List LocalStudent) (soldier : LocalSoldier) :
    ((students.map (fun student => calculateSecureMatch dscore student soldier)).filter
      (fun mc => 0 < mc.score)) =
      students.map (fun student => calculateSecureMatch dscore student soldier) := by
  apply List.filter_eq_self.mpr
  intro a ha
  obtain ⟨st, _, rfl⟩ := List.mem_map.mp ha
  exact decide_eq_true
    (lt_of_lt_of_le one_pos (calculateSecureMatch_score_ge_one dscore st soldier))

/-- C4: findAllSecureMatches gives every soldier an entry, and every entry is
the full list of that soldier's scored students — no truncation (a permutation
of one candidate per student, since every score clears the positive filter) —
sorted by descending score. -/
theorem claim_C4_candidate_lists (dscore : String → String → Int)
    (students : List LocalStudent) (soldiers : List LocalSoldier) :
    (∀ so ∈ soldiers, ∃ cs, (so.contact_id, cs) ∈ findAllSecureMatches dscore students soldiers) ∧
    (∀ k cs, (k, cs) ∈ findAllSecureMatches dscore students soldiers →
      ∃ so ∈ soldiers, so.contact_id = k ∧
        cs.Perm (students.map (fun st => calculateSecureMatch dscore st so)) ∧
        cs.Pairwise (fun a b => b.score ≤ a.score)) := by
  constructor
  · intro so hso
    obtain ⟨e, he, hfst⟩ := List.mem_map.mp (findAll_keys_complete dscore students soldiers hso)
    exact ⟨e.2, by rwa [← hfst, Prod.mk.eta]⟩
  · intro k cs hmem
    obtain ⟨so, hso, h1, h2⟩ := findAll_mem dscore students soldiers hmem
    have h2' : cs = soldierCandidates dscore students so := h2
    refine ⟨so, hso, h1.symm, ?_, ?_⟩
    · rw [h2']
      unfold soldierCandidates
      rw [filter_score_pos_eq_self]
      exact List.perm_insertionSort scoreDesc _
    · rw [h2']
      unfold soldierCandidates
      exact List.sorted_insertionSort scoreDesc _

/-- Witness for C4 at a concrete one-student, one-soldier input. -/
theorem claim_C4_candidate_lists_witness :
    ∃ so ∈ [wSoldier], so.contact_id = "sol-1" ∧
      ([calculateSecureMatch wDscore wStudent wSoldier]).Perm
        ([wStudent].map (fun st => calculateSecureMatch wDscore st so)) ∧
      ([calculateSecureMatch wDscore wStudent wSoldier]).Pairwise
        (fun a b => b.score ≤ a.score) :=
  (claim_C4_candidate_lists wDscore [wStudent] [wSoldier]).2 "sol-1"
    [calculateSecureMatch wDscore wStudent wSoldier] (by decide)

/-! ## Degenerate inputs (claim C7) -/

theorem processSoldier_empty (uuid : Nat → String) (st : OptState) (k : String) :
    processSoldier uuid st (k, []) = st := rfl

theorem foldl_processSoldier_all_empty (uuid : Nat → String) :
    ∀ (es : List (String × List MatchCandidate)) (st : OptState),
      (∀ e ∈ es, e.2 = []) → es.foldl (processSoldier uuid) st = st
  | [], _, _ => rfl
  | e :: rest, st, h => by
    have he : e.2 = [] := h e (List.mem_cons_self e rest)
    have hst : processSoldier uuid st e = st := by
      rw [show e = (e.1, ([] : List MatchCandidate)) from Prod.ext rfl he]
      exact processSoldier_empty uuid st e.1
    rw [List.foldl_cons, hst]
    exact foldl_processSoldier_all_empty uuid rest st fun e' h' => h e' (List.mem_cons_of_mem e h')

theorem rebalanceStep_result_nil (dscore : String → String → Int) (uuid : Nat → String)
    (st : OptState) (u : LocalStudent) (h : st.result = []) :
    rebalanceStep dscore uuid st u = st := by
  unfold rebalanceStep bestSwapScan
  rw [h]
  norm_num

theorem foldl_rebalanceStep_result_nil (dscore : String → String → Int) (uuid : Nat → String) :
    ∀ (us : List LocalStudent) (st : OptState), st.result = [] →
      us.foldl (rebalanceStep dscore uuid) st = st
  | [], _, _ => rfl
  | u :: rest, st, h => by
    rw [List.foldl_cons, rebalanceStep_result_nil dscore uuid st u h]
    exact foldl_rebalanceStep_result_nil dscore uuid rest st h

theorem optimize_empty_result (dscore : String → String → Int) (uuid : Nat → String)
    (m : List (String × List MatchCandidate)) (students : List LocalStudent)
    (h : ∀ e ∈ m, e.2 = ([] : List MatchCandidate)) :
    optimizeSecureMatches dscore uuid m students = [] := by
  unfold optimizeSecureMatches optimizeFinalPass optimizeMainLoop
  have hmain : (List.insertionSort soldierOptionsRel m).foldl (processSoldier uuid)
      { result := [], counts := fun _ => 0, nextId := 0 } =
      { result := [], counts := fun _ => 0, nextId := 0 } := by
    apply foldl_processSoldier_all_empty
    intro e he
    exact h e ((List.perm_insertionSort soldierOptionsRel m).mem_iff.mp he)
  rw [hmain]
  rw [foldl_rebalanceStep_result_nil dscore uuid _ _ rfl]

theorem findAll_entry_nil_of_no_students (dscore : String → String → Int)
    (soldiers : List LocalSoldier) :
    ∀ e ∈ findAllSecureMatches dscore [] soldiers, e.2 = ([] : List MatchCandidate) := by
  intro e he
  obtain ⟨so, _, _, h2⟩ := findAll_mem dscore [] soldiers he
  rw [h2]
  rfl

/-- C7, counterexample to the claim as stated: with one student and zero
soldiers the assignment list is empty but the summary's totalStudents count
field is 1, not 0. -/
theorem claim_C7_counterexample :
    (runSecureMatchingAlgorithm wDscore wUuidA [wStudent] []).2.totalStudents ≠ 0 := by
  decide

/-- C7 as amended: with 0 students or 0 soldiers the run returns an empty
assignment list and throws nothing, and every match-derived summary count is
zero; but totalStudents, totalSoldiers, studentsNotUsed and
soldiersWithNoMatch equal the respective input sizes rather than zero. -/
theorem claim_C7_amended_degenerate_inputs (dscore : String → String → Int)
    (uuid : Nat → String) (students : List LocalStudent) (soldiers : List LocalSoldier)
    (h : students = [] ∨ soldiers = []) :
    (runSecureMatchingAlgorithm dscore uuid students soldiers).1 = [] ∧
    (runSecureMatchingAlgorithm dscore uuid students soldiers).2 =
      { totalStudents := (students.length : Int)
        totalSoldiers := (soldiers.length : Int)
        totalMatches := 0
        soldiersWithTwoMatches := 0
        soldiersWithOneMatch := 0
        soldiersWithNoMatch := (soldiers.length : Int)
        studentsUsed := 0
        studentsNotUsed := (students.length : Int)
        avgScore := 0
        highScoreMatches := 0
        mediumScoreMatches := 0
        lowScoreMatches := 0 } := by
  have hopt : optimizeSecureMatches dscore uuid
      (findAllSecureMatches dscore students soldiers) students = [] := by
    rcases h with rfl | rfl
    · exact optimize_empty_result dscore uuid _ _
        (findAll_entry_nil_of_no_students dscore soldiers)
    · exact optimize_empty_result dscore uuid _ _ (by intro e he; cases he)
  simp only [runSecureMatchingAlgorithm, hopt]
  simp [tallyBySoldier]

/-- Witness for the amended C7 at one student and zero soldiers. -/
theorem claim_C7_amended_degenerate_inputs_witness :
    (runSecureMatchingAlgorithm wDscore wUuidA [wStudent] []).1 = [] ∧
    (runSecureMatchingAlgorithm wDscore wUuidA [wStudent] []).2 =
      { totalStudents := 1
        totalSoldiers := 0
        totalMatches := 0
        soldiersWithTwoMatches := 0
        soldiersWithOneMatch := 0
        soldiersWithNoMatch := 0
        studentsUsed := 0
        studentsNotUsed := 1
        avgScore := 0
        highScoreMatches := 0
        mediumScoreMatches := 0
        lowScoreMatches := 0 } :=
  claim_C7_amended_degenerate_inputs wDscore wUuidA [wStudent] [] (Or.inr rfl)

/-! ## Summary identities (claim C8) -/

theorem mem_bumpTally_le {t : List (String × Int)} {k : String}
    (h : ∀ p ∈ t, 1 ≤ p.2) : ∀ p ∈ bumpTally t k, 1 ≤ p.2 := by
  unfold bumpTally
  split
  · intro p hp
    obtain ⟨q, hq, rfl⟩ := List.mem_map.mp hp
    by_cases hk : q.1 = k
    · simpa [hk] using by linarith [h q hq]
    · simpa [hk] using h q hq
  · intro p hp
    rcases List.mem_append.mp hp with hp | hp
    · exact h p hp
    · rw [List.mem_singleton] at hp
      subst hp
      norm_num

theorem tallyBySoldier_values_pos (ms : List EnrichedMatch) :
    ∀ p ∈ tallyBySoldier ms, 1 ≤ p.2 := by
  suffices hgen : ∀ (l : List EnrichedMatch) (acc : List (String × Int)),
      (∀ p ∈ acc, 1 ≤ p.2) →
      ∀ p ∈ l.foldl (fun t m => bumpTally t m.soldier_external_id) acc, 1 ≤ p.2 by
    exact hgen ms [] (fun p hp => absurd hp (List.not_mem_nil p))
  intro l
  induction l with
  | nil => exact fun acc h => h
  | cons m rest ih => exact fun acc h => ih _ (mem_bumpTally_le h)

theorem filter_length_partition :
    ∀ (values : List Int), (∀ v ∈ values, 1 ≤ v) →
      ((values.filter (fun c => 2 ≤ c)).length + (values.filter (fun c => c = 1)).length =
        values.length)
  | [], _ => rfl
  | v :: rest, h => by
    have hv : 1 ≤ v := h v (List.mem_cons_self v rest)
    have hrest := filter_length_partition rest fun w hw => h w (List.mem_cons_of_mem v hw)
    by_cases h2 : 2 ≤ v
    · have hne : ¬(v = 1) := by omega
      simp [List.filter_cons, h2, hne, hrest]
      omega
    · have heq : v = 1 := by omega
      simp [List.filter_cons, h2, heq, hrest]
      omega

/-- C8: the summary counts are consistent — the soldiers with two, one and no
matches sum to totalSoldiers, and the used and unused students sum to
totalStudents. -/
theorem claim_C8_summary_identities (dscore : String → String → Int)
    (uuid : Nat → String) (students : List LocalStudent) (soldiers : List LocalSoldier) :
    (runSecureMatchingAlgorithm dscore uuid students soldiers).2.soldiersWithTwoMatches +
      (runSecureMatchingAlgorithm dscore uuid students soldiers).2.soldiersWithOneMatch +
      (runSecureMatchingAlgorithm dscore uuid students soldiers).2.soldiersWithNoMatch =
      (runSecureMatchingAlgorithm dscore uuid students soldiers).2.totalSoldiers ∧
    (runSecureMatchingAlgorithm dscore uuid students soldiers).2.studentsUsed +
      (runSecureMatchingAlgorithm dscore uuid students soldiers).2.studentsNotUsed =
      (runSecureMatchingAlgorithm dscore uuid students soldiers).2.totalStudents := by
  simp only [runSecureMatchingAlgorithm]
  constructor
  · have hpos := tallyBySoldier_values_pos
      (List.insertionSort confidenceDesc
        (optimizeSecureMatches dscore uuid (findAllSecureMatches dscore students soldiers)
          students))
    have hpart := filter_length_partition
      ((tallyBySoldier (List.insertionSort confidenceDesc
        (optimizeSecureMatches dscore uuid (findAllSecureMatches dscore students soldiers)
          students))).map (fun p => p.2))
      (by
        intro v hv
        obtain ⟨p, hp, rfl⟩ := List.mem_map.mp hv
        exact hpos p hp)
    simp only [List.length_map] at hpart
    omega
  · ring

/-! ## Determinism up to generated ids (claim C9)

The run depends on the uuid entropy stream only through the id field of each
assignment record: erasing the ids makes two runs with different entropy
agree exactly. -/

/-- Erase the randomly generated id of an assignment record. -/
def eraseId (m : EnrichedMatch) : EnrichedMatch := { m with id := "" }

/-- The two executions compared during the C9 simulation agree on results up
to ids and agree exactly on the live counters. -/
def StateRel (st1 st2 : OptState) : Prop :=
  st1.result.map eraseId = st2.result.map eraseId ∧ st1.counts = st2.counts

theorem any_sid_congr (x : String) {l1 l2 : List EnrichedMatch}
    (h : l1.map eraseId = l2.map eraseId) :
    (l1.any fun m => m.student_external_id = x) =
      (l2.any fun m => m.student_external_id = x) := by
  have h1 : (l1.map eraseId).any (fun m => m.student_external_id = x) =
      l1.any fun m => m.student_external_id = x := List.any_map
  have h2 : (l2.map eraseId).any (fun m => m.student_external_id = x) =
      l2.any fun m => m.student_external_id = x := List.any_map
  rw [← h1, ← h2, h]

theorem assignUpToTwo_congr (u1 u2 : Nat → String) :
    ∀ (cs : List MatchCandidate) (a1 a2 : List EnrichedMatch) (counts : String → Int)
      (n1 n2 : Nat), a1.map eraseId = a2.map eraseId →
      (assignUpToTwo u1 cs a1 counts n1).1.map eraseId =
        (assignUpToTwo u2 cs a2 counts n2).1.map eraseId ∧
      (assignUpToTwo u1 cs a1 counts n1).2.1 = (assignUpToTwo u2 cs a2 counts n2).2.1 := by
  intro cs
  induction cs with
  | nil =>
    intro a1 a2 counts n1 n2 h
    simp only [assignUpToTwo]
    exact ⟨h, trivial⟩
  | cons c rest ih =>
    intro a1 a2 counts n1 n2 h
    have hlen : a1.length = a2.length := by simpa using congrArg List.length h
    simp only [assignUpToTwo]
    rw [← hlen, ← any_sid_congr c.student.contact_id h]
    by_cases h2 : 2 ≤ a1.length
    · simp only [if_pos h2]
      exact ⟨h, trivial⟩
    · simp only [if_neg h2]
      by_cases hskip : (a1.any fun m => m.student_external_id = c.student.contact_id) = true
      · simp only [if_pos hskip]
        exact ih a1 a2 counts n1 n2 h
      · simp only [if_neg hskip]
        refine ih _ _ _ _ _ ?_
        rw [List.map_append, List.map_append, h]
        rfl

theorem processSoldier_congr (u1 u2 : Nat → String) {st1 st2 : OptState}
    (e : String × List MatchCandidate) (h : StateRel st1 st2) :
    StateRel (processSoldier u1 st1 e) (processSoldier u2 st2 e) := by
  obtain ⟨hr, hc⟩ := h
  unfold processSoldier
  by_cases he : e.2.isEmpty = true
  · simp only [if_pos he]
    exact ⟨hr, hc⟩
  · simp only [if_neg he]
    rw [← hc]
    obtain ⟨h1, h2⟩ := assignUpToTwo_congr u1 u2
      (List.insertionSort (candidateRel st1.counts) e.2) [] [] st1.counts st1.nextId st2.nextId rfl
    refine ⟨?_, h2⟩
    simp only [List.map_append, hr, h1]

theorem mainLoop_congr (u1 u2 : Nat → String)
    (m : List (String × List MatchCandidate)) (students : List LocalStudent) :
    StateRel (optimizeMainLoop u1 m students) (optimizeMainLoop u2 m students) := by
  unfold optimizeMainLoop
  generalize List.insertionSort soldierOptionsRel m = es
  suffices hgen : ∀ (es : List (String × List MatchCandidate)) (st1 st2 : OptState),
      StateRel st1 st2 →
      StateRel (es.foldl (processSoldier u1) st1) (es.foldl (processSoldier u2) st2) by
    exact hgen es _ _ ⟨rfl, rfl⟩
  intro es
  induction es with
  | nil => exact fun st1 st2 h => h
  | cons e rest ih => exact fun st1 st2 h => ih _ _ (processSoldier_congr u1 u2 e h)

theorem bestSwapScan_congr (counts : String → Int) :
    ∀ (l1 l2 : List EnrichedMatch), l1.map eraseId = l2.map eraseId →
      ∀ (i : Nat) (bi bo : Int),
        bestSwapScan counts l1 i bi bo = bestSwapScan counts l2 i bi bo := by
  intro l1
  induction l1 with
  | nil =>
    intro l2 h i bi bo
    cases l2 with
    | nil => rfl
    | cons m2 r2 => simp at h
  | cons m1 r1 ih =>
    intro l2 h i bi bo
    cases l2 with
    | nil => simp at h
    | cons m2 r2 =>
      simp only [List.map_cons, List.cons.injEq] at h
      obtain ⟨hm, hr⟩ := h
      have hrank : m1.match_rank = m2.match_rank := by
        have := congrArg EnrichedMatch.match_rank hm
        simpa [eraseId] using this
      have hsid : m1.student_external_id = m2.student_external_id := by
        have := congrArg EnrichedMatch.student_external_id hm
        simpa [eraseId] using this
      simp only [bestSwapScan]
      rw [← hrank, ← hsid]
      by_cases h2 : m1.match_rank ≠ 2
      · simp only [if_pos h2]
        exact ih r2 hr _ _ _
      · simp only [if_neg h2]
        by_cases hlt : bo < counts m1.student_external_id
        · simp only [if_pos hlt]
          exact ih r2 hr _ _ _
        · simp only [if_neg hlt]
          exact ih r2 hr _ _ _

theorem rebalanceStep_congr (dscore : String → String → Int) (u1 u2 : Nat → String)
    {st1 st2 : OptState} (x : LocalStudent) (h : StateRel st1 st2) :
    StateRel (rebalanceStep dscore u1 st1 x) (rebalanceStep dscore u2 st2 x) := by
  obtain ⟨hr, hc⟩ := h
  simp only [rebalanceStep]
  rw [← hc, ← bestSwapScan_congr st1.counts st1.result st2.result hr 0 (-1) 0]
  by_cases hcond : 0 ≤ (bestSwapScan st1.counts st1.result 0 (-1) 0).1 ∧
      1 < (bestSwapScan st1.counts st1.result 0 (-1) 0).2
  · simp only [if_pos hcond]
    have hget : Option.map eraseId
        (st1.result[(bestSwapScan st1.counts st1.result 0 (-1) 0).1.toNat]?) =
        Option.map eraseId
          (st2.result[(bestSwapScan st1.counts st1.result 0 (-1) 0).1.toNat]?) := by
      rw [← List.getElem?_map, ← List.getElem?_map, hr]
    cases h1 : st1.result[(bestSwapScan st1.counts st1.result 0 (-1) 0).1.toNat]? with
    | none =>
      cases h2 : st2.result[(bestSwapScan st1.counts st1.result 0 (-1) 0).1.toNat]? with
      | none => exact ⟨hr, hc⟩
      | some m2 =>
        rw [h1, h2] at hget
        simp at hget
    | some m1 =>
      cases h2 : st2.result[(bestSwapScan st1.counts st1.result 0 (-1) 0).1.toNat]? with
      | none =>
        rw [h1, h2] at hget
        simp at hget
      | some m2 =>
        rw [h1, h2] at hget
        simp only [Option.map_some', Option.some.injEq] at hget
        have hsold : m1.soldier = m2.soldier := by
          have := congrArg EnrichedMatch.soldier hget
          simpa [eraseId] using this
        have hsoid : m1.soldier_external_id = m2.soldier_external_id := by
          have := congrArg EnrichedMatch.soldier_external_id hget
          simpa [eraseId] using this
        refine ⟨?_, rfl⟩
        simp only [List.map_set, hr, hsold, hsoid, eraseId]
  · simp only [if_neg hcond]
    exact ⟨hr, hc⟩

theorem foldl_rebalance_congr (dscore : String → String → Int) (u1 u2 : Nat → String) :
    ∀ (us : List LocalStudent) (st1 st2 : OptState), StateRel st1 st2 →
      StateRel (us.foldl (rebalanceStep dscore u1) st1) (us.foldl (rebalanceStep dscore u2) st2)
  | [], _, _, h => h
  | x :: rest, _, _, h =>
    foldl_rebalance_congr dscore u1 u2 rest _ _ (rebalanceStep_congr dscore u1 u2 x h)

theorem finalPass_congr (dscore : String → String → Int) (u1 u2 : Nat → String)
    (students : List LocalStudent) {st1 st2 : OptState} (h : StateRel st1 st2) :
    StateRel (optimizeFinalPass dscore u1 students st1)
      (optimizeFinalPass dscore u2 students st2) := by
  have hsid : st1.result.map (fun m => m.student_external_id) =
      st2.result.map (fun m => m.student_external_id) := by
    have e1 : (st1.result.map eraseId).map (fun m => m.student_external_id) =
        st1.result.map (fun m => m.student_external_id) := by
      rw [List.map_map]
      rfl
    have e2 : (st2.result.map eraseId).map (fun m => m.student_external_id) =
        st2.result.map (fun m => m.student_external_id) := by
      rw [List.map_map]
      rfl
    rw [← e1, ← e2, h.1]
  simp only [optimizeFinalPass]
  rw [hsid]
  exact foldl_rebalance_congr dscore u1 u2 _ st1 st2 h

theorem optimize_congr (dscore : String → String → Int) (u1 u2 : Nat → String)
    (m : List (String × List MatchCandidate)) (students : List LocalStudent) :
    (optimizeSecureMatches dscore u1 m students).map eraseId =
      (optimizeSecureMatches dscore u2 m students).map eraseId :=
  (finalPass_congr dscore u1 u2 students (mainLoop_congr u1 u2 m students)).1

theorem map_orderedInsert_eraseId (a : EnrichedMatch) :
    ∀ (l : List EnrichedMatch),
      (List.orderedInsert confidenceDesc a l).map eraseId =
        List.orderedInsert confidenceDesc (eraseId a) (l.map eraseId)
  | [] => rfl
  | b :: l => by
    simp only [List.orderedInsert, List.map_cons]
    have hcd : confidenceDesc (eraseId a) (eraseId b) ↔ confidenceDesc a b := Iff.rfl
    by_cases hle : confidenceDesc a b
    · rw [if_pos hle, if_pos (hcd.mpr hle)]
      simp
    · rw [if_neg hle, if_neg (fun hx => hle (hcd.mp hx))]
      simp [map_orderedInsert_eraseId a l]

theorem map_insertionSort_eraseId :
    ∀ (l : List EnrichedMatch),
      (List.insertionSort confidenceDesc l).map eraseId =
        List.insertionSort confidenceDesc (l.map eraseId)
  | [] => rfl
  | a :: l => by
    simp only [List.insertionSort, List.map_cons]
    rw [map_orderedInsert_eraseId, map_insertionSort_eraseId l]

theorem tally_congr : ∀ (l1 l2 : List EnrichedMatch), l1.map eraseId = l2.map eraseId →
    ∀ (acc : List (String × Int)),
      l1.foldl (fun t m => bumpTally t m.soldier_external_id) acc =
        l2.foldl (fun t m => bumpTally t m.soldier_external_id) acc
  | [], [], _, _ => rfl
  | [], _ :: _, h, _ => by simp at h
  | _ :: _, [], h, _ => by simp at h
  | m1 :: r1, m2 :: r2, h, acc => by
    simp only [List.map_cons, List.cons.injEq] at h
    obtain ⟨hm, hr⟩ := h
    have hsoid : m1.soldier_external_id = m2.soldier_external_id := by
      have := congrArg EnrichedMatch.soldier_external_id hm
      simpa [eraseId] using this
    simp only [List.foldl_cons, hsoid]
    exact tally_congr r1 r2 hr _

theorem countP_congr_eraseId (p : EnrichedMatch → Bool)
    (hp : ∀ m, p (eraseId m) = p m) {l1 l2 : List EnrichedMatch}
    (h : l1.map eraseId = l2.map eraseId) : l1.countP p = l2.countP p := by
  have e1 : (l1.map eraseId).countP p = l1.countP p := by
    rw [List.countP_map]
    exact List.countP_congr fun m _ => by simp [Function.comp, hp m]
  have e2 : (l2.map eraseId).countP p = l2.countP p := by
    rw [List.countP_map]
    exact List.countP_congr fun m _ => by simp [Function.comp, hp m]
  rw [← e1, ← e2, h]

/-- C9, corrected form: runSecureMatchingAlgorithm is deterministic up to the
generated id fields — two runs on identical inputs with the same external
distance service return assignment lists that agree on every field except id,
and identical summaries, whatever entropy each run draws. -/
theorem claim_C9_amended_deterministic_up_to_ids (dscore : String → String → Int)
    (u1 u2 : Nat → String) (students : List LocalStudent) (soldiers : List LocalSoldier) :
    (runSecureMatchingAlgorithm dscore u1 students soldiers).1.map eraseId =
      (runSecureMatchingAlgorithm dscore u2 students soldiers).1.map eraseId ∧
    (runSecureMatchingAlgorithm dscore u1 students soldiers).2 =
      (runSecureMatchingAlgorithm dscore u2 students soldiers).2 := by
  have hopt := optimize_congr dscore u1 u2 (findAllSecureMatches dscore students soldiers) students
  have hsorted : (List.insertionSort confidenceDesc
      (optimizeSecureMatches dscore u1 (findAllSecureMatches dscore students soldiers)
        students)).map eraseId =
      (List.insertionSort confidenceDesc
        (optimizeSecureMatches dscore u2 (findAllSecureMatches dscore students soldiers)
          students)).map eraseId := by
    rw [map_insertionSort_eraseId, map_insertionSort_eraseId, hopt]
  constructor
  · simpa only [runSecureMatchingAlgorithm] using hsorted
  · simp only [runSecureMatchingAlgorithm]
    set L1 := List.insertionSort confidenceDesc
      (optimizeSecureMatches dscore u1 (findAllSecureMatches dscore students soldiers) students)
    set L2 := List.insertionSort confidenceDesc
      (optimizeSecureMatches dscore u2 (findAllSecureMatches dscore students soldiers) students)
    have hlen : L1.length = L2.length := by
      have := congrArg List.length hsorted
      simpa using this
    have htally : tallyBySoldier L1 = tallyBySoldier L2 := tally_congr L1 L2 hsorted []
    have hsid : L1.map (fun m => m.student_external_id) =
        L2.map (fun m => m.student_external_id) := by
      have e1 : (L1.map eraseId).map (fun m => m.student_external_id) =
          L1.map (fun m => m.student_external_id) := by rw [List.map_map]; rfl
      have e2 : (L2.map eraseId).map (fun m => m.student_external_id) =
          L2.map (fun m => m.student_external_id) := by rw [List.map_map]; rfl
      rw [← e1, ← e2, hsorted]
    have hconf : L1.map (fun m => m.confidence_score) =
        L2.map (fun m => m.confidence_score) := by
      have e1 : (L1.map eraseId).map (fun m => m.confidence_score) =
          L1.map (fun m => m.confidence_score) := by rw [List.map_map]; rfl
      have e2 : (L2.map eraseId).map (fun m => m.confidence_score) =
          L2.map (fun m => m.confidence_score) := by rw [List.map_map]; rfl
      rw [← e1, ← e2, hsorted]
    have hhigh : L1.countP (fun m => 70 ≤ m.confidence_score) =
        L2.countP (fun m => 70 ≤ m.confidence_score) :=
      countP_congr_eraseId _ (fun m => by rfl) hsorted
    have hmed : L1.countP (fun m => 30 ≤ m.confidence_score ∧ m.confidence_score < 70) =
        L2.countP (fun m => 30 ≤ m.confidence_score ∧ m.confidence_score < 70) :=
      countP_congr_eraseId _ (fun m => by rfl) hsorted
    have hlow : L1.countP (fun m => m.confidence_score < 30) =
        L2.countP (fun m => m.confidence_score < 30) :=
      countP_congr_eraseId _ (fun m => by rfl) hsorted
    simp only [tallyBySoldier] at htally
    simp only [tallyBySoldier, htally, hlen, hsid, hconf,
      ← List.countP_eq_length_filter, hhigh, hmed, hlow]

/-- C9, counterexample to the claim as stated: the id fields are freshly
generated randomness, so two runs on identical inputs with the same external
services can differ (in every generated id). -/
theorem claim_C9_counterexample :
    runSecureMatchingAlgorithm wDscore wUuidA [wStudent] [wSoldier] ≠
      runSecureMatchingAlgorithm wDscore wUuidB [wStudent] [wSoldier] := by
  decide

/-! ## Specification of the per-soldier assignment walk -/

theorem card_insert_sdiff_of_not_mem {a : String} {T S : Finset String} (ha : a ∉ S) :
    ((insert a T) \ S).card = 1 + (T \ insert a S).card := by
  have he : (insert a T) \ S = insert a (T \ insert a S) := by
    ext x
    simp only [Finset.mem_sdiff, Finset.mem_insert]
    constructor
    · rintro ⟨hx | hx, hns⟩
      · exact Or.inl hx
      · by_cases hxa : x = a
        · exact Or.inl hxa
        · exact Or.inr ⟨hx, fun hor => hor.elim hxa hns⟩
    · rintro (rfl | ⟨hx, hno⟩)
      · exact ⟨Or.inl rfl, ha⟩
      · exact ⟨Or.inr hx, fun hs => hno (Or.inr hs)⟩
  rw [he, Finset.card_insert_of_not_mem (by simp), Nat.add_comm]

theorem any_sid_eq_false_not_mem {assigned : List EnrichedMatch} {x : String}
    (h : (assigned.any fun m => m.student_external_id = x) = false) :
    x ∉ assigned.map fun m => m.student_external_id := by
  intro hx
  obtain ⟨m, hm, hmx⟩ := List.mem_map.mp hx
  have hco : (assigned.any fun m => m.student_external_id = x) = true :=
    List.any_eq_true.mpr ⟨m, hm, decide_eq_true hmx⟩
  rw [h] at hco
  cases hco

/-- Full specification of assignUpToTwo: the walk appends a block to the
incoming assignments; the final length is the incoming length plus the number
of distinct new student ids, capped at two; student ids stay distinct; ranks
are positional; every block entry comes from a candidate; and the counters
receive exactly the rank-1 contributions of the block. -/
theorem assignUpToTwo_spec (uuid : Nat → String) :
    ∀ (cs : List MatchCandidate) (assigned : List EnrichedMatch) (counts : String → Int)
      (n : Nat), assigned.length ≤ 2 →
      ((assigned.map fun m => m.student_external_id).Nodup) →
      (∀ (i : Nat) (mm : EnrichedMatch), assigned[i]? = some mm → mm.match_rank = i + 1) →
      ∃ new : List EnrichedMatch,
        (assignUpToTwo uuid cs assigned counts n).1 = assigned ++ new ∧
        (assigned ++ new).length =
          min (assigned.length +
            ((cs.map fun c => c.student.contact_id).toFinset \
              (assigned.map fun m => m.student_external_id).toFinset).card) 2 ∧
        ((assigned ++ new).map fun m => m.student_external_id).Nodup ∧
        (∀ (i : Nat) (mm : EnrichedMatch), (assigned ++ new)[i]? = some mm →
          mm.match_rank = i + 1) ∧
        (∀ mm ∈ new, ∃ c ∈ cs, mm.student_external_id = c.student.contact_id ∧
          mm.soldier_external_id = c.soldier.contact_id) ∧
        (∀ id, (assignUpToTwo uuid cs assigned counts n).2.1 id =
          counts id +
            ((new.countP fun mm => mm.student_external_id = id ∧ mm.match_rank = 1) : Int)) := by
  intro cs
  induction cs with
  | nil =>
    intro assigned counts n hlen hnodup hranks
    refine ⟨[], by simp [assignUpToTwo], ?_, by simpa using hnodup, by simpa using hranks,
      by simp, by simp [assignUpToTwo]⟩
    simp only [List.map_nil, List.toFinset_nil, Finset.empty_sdiff, Finset.card_empty,
      Nat.add_zero, List.append_nil]
    omega
  | cons c rest ih =>
    intro assigned counts n hlen hnodup hranks
    simp only [assignUpToTwo]
    by_cases h2 : 2 ≤ assigned.length
    · refine ⟨[], by simp [h2], ?_, by simpa using hnodup, by simpa using hranks,
        by simp, by simp [h2]⟩
      simp only [List.append_nil]
      omega
    · simp only [if_neg h2]
      by_cases hskip : (assigned.any fun m => m.student_external_id = c.student.contact_id) = true
      · simp only [if_pos hskip]
        obtain ⟨new, h1, h2', h3, h4, h5, h6⟩ := ih assigned counts n hlen hnodup hranks
        refine ⟨new, h1, ?_, h3, h4, ?_, h6⟩
        · rw [h2']
          obtain ⟨m, hm, hmx⟩ := List.any_eq_true.mp hskip
          have hcid : c.student.contact_id ∈
              (assigned.map fun m => m.student_external_id).toFinset := by
            rw [List.mem_toFinset]
            exact List.mem_map.mpr ⟨m, hm, of_decide_eq_true hmx⟩
          simp only [List.map_cons, List.toFinset_cons]
          rw [Finset.insert_sdiff_of_mem _ hcid]
        · intro mm hmm
          obtain ⟨c', hc', hp⟩ := h5 mm hmm
          exact ⟨c', List.mem_cons_of_mem c hc', hp⟩
      · simp only [if_neg hskip]
        simp only [Bool.not_eq_true] at hskip
        have hnotmem : c.student.contact_id ∉ assigned.map fun m => m.student_external_id :=
          any_sid_eq_false_not_mem hskip
        set mk := mkMatch uuid n (assigned.length + 1) c with hmk
        have hmk_sid : mk.student_external_id = c.student.contact_id := rfl
        have hmk_oid : mk.soldier_external_id = c.soldier.contact_id := rfl
        have hmk_rank : mk.match_rank = assigned.length + 1 := rfl
        have hlen' : (assigned ++ [mk]).length ≤ 2 := by
          simp only [List.length_append, List.length_cons, List.length_nil]
          omega
        have hmap' : (assigned ++ [mk]).map (fun m => m.student_external_id) =
            (assigned.map fun m => m.student_external_id) ++ [c.student.contact_id] := by
          simp [hmk_sid]
        have hnodup' : ((assigned ++ [mk]).map fun m => m.student_external_id).Nodup := by
          rw [hmap', List.nodup_append]
          exact ⟨hnodup, List.nodup_singleton _,
            fun a ha hb => by rw [List.mem_singleton] at hb; subst hb; exact hnotmem ha⟩
        have hranks' : ∀ (i : Nat) (mm : EnrichedMatch), (assigned ++ [mk])[i]? = some mm →
            mm.match_rank = i + 1 := by
          intro i mm hi
          rcases Nat.lt_trichotomy i assigned.length with hlt | heq | hgt
          · rw [List.getElem?_append_left hlt] at hi
            exact hranks i mm hi
          · subst heq
            rw [List.getElem?_concat_length] at hi
            cases hi
            exact hmk_rank
          · have hnone : (assigned ++ [mk])[i]? = none := by
              apply List.getElem?_eq_none
              simp only [List.length_append, List.length_cons, List.length_nil]
              omega
            rw [hnone] at hi
            cases hi
        obtain ⟨new', h1, h2', h3, h4, h5, h6⟩ :=
          ih (assigned ++ [mk]) (if assigned.length + 1 = 1 then
            bumpCount counts c.student.contact_id else counts) (n + 1) hlen' hnodup' hranks'
        have happ : (assigned ++ [mk]) ++ new' = assigned ++ (mk :: new') := by simp
        rw [happ] at h1 h2' h3 h4
        refine ⟨mk :: new', h1, ?_, h3, h4, ?_, ?_⟩
        · rw [h2']
          have hS : ((assigned ++ [mk]).map fun m => m.student_external_id).toFinset =
              insert c.student.contact_id
                ((assigned.map fun m => m.student_external_id).toFinset) := by
            rw [hmap']
            ext x
            simp [or_comm]
          rw [hS]
          have hcard := card_insert_sdiff_of_not_mem
            (a := c.student.contact_id)
            (T := (rest.map fun c => c.student.contact_id).toFinset)
            (S := (assigned.map fun m => m.student_external_id).toFinset)
            (by rwa [List.mem_toFinset])
          simp only [List.map_cons, List.toFinset_cons]
          rw [hcard]
          simp only [List.length_append, List.length_cons, List.length_nil]
          omega
        · intro mm hmm
          rcases List.mem_cons.mp hmm with rfl | hmm'
          · exact ⟨c, List.mem_cons_self c rest, hmk_sid, hmk_oid⟩
          · obtain ⟨c', hc', hp⟩ := h5 mm hmm'
            exact ⟨c', List.mem_cons_of_mem c hc', hp⟩
        · intro id
          rw [h6 id, List.countP_cons]
          by_cases hr1 : assigned.length + 1 = 1
          · simp only [if_pos hr1, bumpCount]
            by_cases hid : id = c.student.contact_id
            · have hp : (decide (mk.student_external_id = id ∧ mk.match_rank = 1)) = true := by
                rw [decide_eq_true_eq]
                exact ⟨by rw [hmk_sid, hid], by rw [hmk_rank, hr1]⟩
              rw [hp]
              simp only [if_pos hid]
              push_cast
              ring
            · have hp : (decide (mk.student_external_id = id ∧ mk.match_rank = 1)) = false := by
                rw [decide_eq_false_iff_not]
                rintro ⟨hs, _⟩
                exact hid (by rw [← hs, hmk_sid])
              rw [hp]
              simp only [if_neg hid]
              push_cast
              ring
          · simp only [if_neg hr1]
            have hp : (decide (mk.student_external_id = id ∧ mk.match_rank = 1)) = false := by
              rw [decide_eq_false_iff_not]
              rintro ⟨_, hrk⟩
              rw [hmk_rank] at hrk
              exact hr1 hrk
            rw [hp]
            push_cast
            ring

/-! ## Structure of the main allocation loop -/

theorem perm_toFinset_eq {l1 l2 : List String} (h : l1.Perm l2) : l1.toFinset = l2.toFinset := by
  ext x
  simp only [List.mem_toFinset]
  exact h.mem_iff

/-- One step of the main loop appends a block with the properties delivered by
the assignment walk (processSoldier only reads the candidate list of its
entry). -/
theorem processSoldier_block (uuid : Nat → String) (st : OptState)
    (e : String × List MatchCandidate) :
    ∃ B : List EnrichedMatch,
      (processSoldier uuid st e).result = st.result ++ B ∧
      B.length = min ((e.2.map fun c => c.student.contact_id).toFinset).card 2 ∧
      ((B.map fun m => m.student_external_id).Nodup) ∧
      (∀ (i : Nat) (mm : EnrichedMatch), B[i]? = some mm → mm.match_rank = i + 1) ∧
      (∀ mm ∈ B, ∃ c ∈ e.2, mm.student_external_id = c.student.contact_id ∧
        mm.soldier_external_id = c.soldier.contact_id) ∧
      (∀ id, (processSoldier uuid st e).counts id =
        st.counts id +
          ((B.countP fun mm => mm.student_external_id = id ∧ mm.match_rank = 1) : Int)) := by
  by_cases hempty : e.2.isEmpty = true
  · have hnil : e.2 = [] := List.isEmpty_iff.mp hempty
    refine ⟨[], ?_, ?_, by simp, by simp, by simp, ?_⟩
    · simp [processSoldier, hempty]
    · rw [hnil]
      simp
    · simp [processSoldier, hempty]
  · obtain ⟨new, h1, h2, h3, h4, h5, h6⟩ := assignUpToTwo_spec uuid
      (List.insertionSort (candidateRel st.counts) e.2) [] st.counts st.nextId
      (by simp) (by simp) (by intro i mm hi; rw [List.getElem?_nil] at hi; cases hi)
    simp only [List.nil_append] at h1 h2 h3 h4
    have hperm : (List.insertionSort (candidateRel st.counts) e.2).Perm e.2 :=
      List.perm_insertionSort _ _
    have hTF : ((List.insertionSort (candidateRel st.counts) e.2).map
        fun c => c.student.contact_id).toFinset =
        ((e.2.map fun c => c.student.contact_id).toFinset) :=
      perm_toFinset_eq (hperm.map _)
    refine ⟨new, ?_, ?_, h3, h4, ?_, ?_⟩
    · simp only [processSoldier, if_neg hempty]
      rw [h1]
    · rw [h2, hTF]
      simp
    · intro mm hmm
      obtain ⟨c, hc, hsid, hoid⟩ := h5 mm hmm
      exact ⟨c, hperm.mem_iff.mp hc, hsid, hoid⟩
    · intro id
      simp only [processSoldier, if_neg hempty]
      exact h6 id

/-- Shape of a block: empty, a single rank-1 entry, or a rank-1 entry
followed by a rank-2 entry. -/
theorem block_shape (B : List EnrichedMatch) (hlen : B.length ≤ 2)
    (hranks : ∀ (i : Nat) (mm : EnrichedMatch), B[i]? = some mm → mm.match_rank = i + 1) :
    B = [] ∨ (∃ a, B = [a] ∧ a.match_rank = 1) ∨
      (∃ a b, B = [a, b] ∧ a.match_rank = 1 ∧ b.match_rank = 2) := by
  rcases B with _ | ⟨a, _ | ⟨b, _ | ⟨c, t⟩⟩⟩
  · exact Or.inl rfl
  · exact Or.inr (Or.inl ⟨a, rfl, hranks 0 a rfl⟩)
  · exact Or.inr (Or.inr ⟨a, b, rfl, hranks 0 a rfl, hranks 1 b rfl⟩)
  · exfalso
    simp only [List.length_cons] at hlen
    omega

/-- Folding the remaining soldiers cannot change the count of any predicate
that pins the soldier id to a key absent from the remaining entries. -/
theorem foldl_countP_frame (uuid : Nat → String) :
    ∀ (es : List (String × List MatchCandidate)) (st : OptState)
      (p : EnrichedMatch → Bool) (k : String),
      (∀ e ∈ es, ∀ c ∈ e.2, c.soldier.contact_id = e.1) →
      k ∉ es.map Prod.fst →
      (∀ mm, p mm = true → mm.soldier_external_id = k) →
      (es.foldl (processSoldier uuid) st).result.countP p = st.result.countP p
  | [], _, _, _, _, _, _ => rfl
  | e :: rest, st, p, k, hcoh, hk, hp => by
    obtain ⟨B, hB1, _, _, _, hBprov, _⟩ := processSoldier_block uuid st e
    have hBoid : ∀ mm ∈ B, mm.soldier_external_id = e.1 := by
      intro mm hmm
      obtain ⟨c, hc, _, hoid⟩ := hBprov mm hmm
      rw [hoid]
      exact hcoh e (List.mem_cons_self e rest) c hc
    have hknot : k ≠ e.1 := by
      intro hke
      exact hk (by rw [hke]; exact List.mem_map.mpr ⟨e, List.mem_cons_self e rest, rfl⟩)
    have hstep : (processSoldier uuid st e).result.countP p = st.result.countP p := by
      rw [hB1, List.countP_append]
      have hzero : B.countP p = 0 := by
        rw [List.countP_eq_zero]
        intro mm hmm hpmm
        exact hknot ((hp mm hpmm).symm.trans (hBoid mm hmm))
      omega
    rw [List.foldl_cons, ← hstep]
    exact foldl_countP_frame uuid rest (processSoldier uuid st e) p k
      (fun e' he' => hcoh e' (List.mem_cons_of_mem e he'))
      (fun hmem => hk (List.mem_cons_of_mem _ hmem)) hp

/-- Per-key counts after the main loop: every soldier entry ends with
min(distinct candidate students, 2) matches under its key, with one rank-1
when nonempty and one rank-2 exactly when two distinct students exist. -/
theorem mainLoop_key_counts (uuid : Nat → String) :
    ∀ (es : List (String × List MatchCandidate)) (st : OptState),
      ((es.map Prod.fst).Nodup) →
      (∀ e ∈ es, ∀ c ∈ e.2, c.soldier.contact_id = e.1) →
      (∀ mm ∈ st.result, mm.soldier_external_id ∉ es.map Prod.fst) →
      ∀ k cs, (k, cs) ∈ es →
        ((es.foldl (processSoldier uuid) st).result.countP
            (fun mm => mm.soldier_external_id = k) =
          min ((cs.map fun c => c.student.contact_id).toFinset).card 2) ∧
        ((es.foldl (processSoldier uuid) st).result.countP
            (fun mm => mm.soldier_external_id = k ∧ mm.match_rank = 1) =
          min ((cs.map fun c => c.student.contact_id).toFinset).card 1) ∧
        ((es.foldl (processSoldier uuid) st).result.countP
            (fun mm => mm.soldier_external_id = k ∧ mm.match_rank = 2) =
          if 2 ≤ ((cs.map fun c => c.student.contact_id).toFinset).card then 1 else 0)
  | [], _, _, _, _, _, _, hmem => absurd hmem (List.not_mem_nil _)
  | e :: rest, st, hkeys, hcoh, hsep, k, cs, hmem => by
    have hkeys' : (rest.map Prod.fst).Nodup := (List.nodup_cons.mp hkeys).2
    have hcoh' : ∀ e' ∈ rest, ∀ c ∈ e'.2, c.soldier.contact_id = e'.1 :=
      fun e' he' => hcoh e' (List.mem_cons_of_mem e he')
    obtain ⟨B, hB1, hB2, hB3, hB4, hBprov, hB7⟩ := processSoldier_block uuid st e
    have hB5 : ∀ mm ∈ B, mm.soldier_external_id = e.1 := by
      intro mm hmm
      obtain ⟨c, hc, _, hoid⟩ := hBprov mm hmm
      rw [hoid]
      exact hcoh e (List.mem_cons_self e rest) c hc
    have hsep' : ∀ mm ∈ (processSoldier uuid st e).result,
        mm.soldier_external_id ∉ rest.map Prod.fst := by
      intro mm hmm
      rw [hB1] at hmm
      rcases List.mem_append.mp hmm with hold | hnew
      · intro hbad
        exact hsep mm hold (List.mem_cons_of_mem _ hbad)
      · rw [hB5 mm hnew]
        exact (List.nodup_cons.mp hkeys).1
    rcases List.mem_cons.mp hmem with heq | hmem'
    · have hek : e.1 = k := congrArg Prod.fst heq.symm
      have hecs : e.2 = cs := congrArg Prod.snd heq.symm
      subst hek
      subst hecs
      have hDlen : B.length ≤ 2 := by rw [hB2]; omega
      have hold_zero : ∀ (p : EnrichedMatch → Bool),
          (∀ mm, p mm = true → mm.soldier_external_id = e.1) →
          st.result.countP p = 0 := by
        intro p hp
        rw [List.countP_eq_zero]
        intro mm hmm hpmm
        apply hsep mm hmm
        rw [hp mm hpmm]
        exact List.mem_map.mpr ⟨e, List.mem_cons_self e rest, rfl⟩
      have hframe : ∀ (p : EnrichedMatch → Bool),
          (∀ mm, p mm = true → mm.soldier_external_id = e.1) →
          ((e :: rest).foldl (processSoldier uuid) st).result.countP p =
            st.result.countP p + B.countP p := by
        intro p hp
        rw [List.foldl_cons,
          foldl_countP_frame uuid rest (processSoldier uuid st e) p e.1 hcoh'
            (List.nodup_cons.mp hkeys).1 hp]
        rw [hB1, List.countP_append]
      rcases block_shape B hDlen hB4 with hsh | ⟨a, hsh, hra⟩ | ⟨a, b, hsh, hra, hrb⟩
      · subst hsh
        have hD0 : min ((e.2.map fun c => c.student.contact_id).toFinset).card 2 = 0 := by
          rw [← hB2]
          rfl
        refine ⟨?_, ?_, ?_⟩
        · rw [hframe _ (fun mm hp => of_decide_eq_true hp),
            hold_zero _ (fun mm hp => of_decide_eq_true hp)]
          simpa using hD0.symm
        · rw [hframe _ (fun mm hp => ((decide_eq_true_eq).mp hp).1),
            hold_zero _ (fun mm hp => ((decide_eq_true_eq).mp hp).1)]
          simp only [List.countP_nil]
          omega
        · rw [hframe _ (fun mm hp => ((decide_eq_true_eq).mp hp).1),
            hold_zero _ (fun mm hp => ((decide_eq_true_eq).mp hp).1)]
          simp only [List.countP_nil]
          have : ¬(2 ≤ ((e.2.map fun c => c.student.contact_id).toFinset).card) := by omega
          rw [if_neg this]
      · subst hsh
        have hD1 : min ((e.2.map fun c => c.student.contact_id).toFinset).card 2 = 1 := by
          rw [← hB2]
          rfl
        have haoid : a.soldier_external_id = e.1 := hB5 a (List.mem_singleton.mpr rfl)
        refine ⟨?_, ?_, ?_⟩
        · rw [hframe _ (fun mm hp => of_decide_eq_true hp),
            hold_zero _ (fun mm hp => of_decide_eq_true hp)]
          simp [haoid]
          omega
        · rw [hframe _ (fun mm hp => ((decide_eq_true_eq).mp hp).1),
            hold_zero _ (fun mm hp => ((decide_eq_true_eq).mp hp).1)]
          simp [haoid, hra]
          intro hnil
          rw [hnil] at hD1
          simp at hD1
        · rw [hframe _ (fun mm hp => ((decide_eq_true_eq).mp hp).1),
            hold_zero _ (fun mm hp => ((decide_eq_true_eq).mp hp).1)]
          have : ¬(2 ≤ ((e.2.map fun c => c.student.contact_id).toFinset).card) := by omega
          rw [if_neg this]
          simp [haoid, hra]
      · subst hsh
        have hD2 : min ((e.2.map fun c => c.student.contact_id).toFinset).card 2 = 2 := by
          rw [← hB2]
          rfl
        have haoid : a.soldier_external_id = e.1 := hB5 a (by simp)
        have hboid : b.soldier_external_id = e.1 := hB5 b (by simp)
        refine ⟨?_, ?_, ?_⟩
        · rw [hframe _ (fun mm hp => of_decide_eq_true hp),
            hold_zero _ (fun mm hp => of_decide_eq_true hp)]
          simp [haoid, hboid]
          omega
        · rw [hframe _ (fun mm hp => ((decide_eq_true_eq).mp hp).1),
            hold_zero _ (fun mm hp => ((decide_eq_true_eq).mp hp).1)]
          simp [haoid, hboid, hra, hrb]
          intro hnil
          rw [hnil] at hD2
          simp at hD2
        · rw [hframe _ (fun mm hp => ((decide_eq_true_eq).mp hp).1),
            hold_zero _ (fun mm hp => ((decide_eq_true_eq).mp hp).1)]
          have : 2 ≤ ((e.2.map fun c => c.student.contact_id).toFinset).card := by omega
          rw [if_pos this]
          simp [haoid, hboid, hra, hrb]
    · rw [List.foldl_cons]
      exact mainLoop_key_counts uuid rest (processSoldier uuid st e) hkeys' hcoh' hsep' k cs hmem'

/-! ## Global invariants of the main loop -/

/-- No two assignments share the same (student id, soldier id) pair. -/
def PairsOK (l : List EnrichedMatch) : Prop :=
  l.Pairwise fun a b => ¬(a.student_external_id = b.student_external_id ∧
    a.soldier_external_id = b.soldier_external_id)

/-- Distinct rank-2 assignments belong to distinct soldiers. -/
def Rank2OidsOK (l : List EnrichedMatch) : Prop :=
  l.Pairwise fun a b => a.match_rank = 2 → b.match_rank = 2 →
    a.soldier_external_id ≠ b.soldier_external_id

/-- The live counters record exactly the rank-1 assignment count of every
student id. -/
def CountsOK (st : OptState) : Prop :=
  ∀ id, st.counts id =
    ((st.result.countP fun mm => mm.student_external_id = id ∧ mm.match_rank = 1) : Int)

/-- All ranks are 1 or 2. -/
def RanksOK (l : List EnrichedMatch) : Prop :=
  ∀ mm ∈ l, mm.match_rank = 1 ∨ mm.match_rank = 2

theorem block_ranksOK {B : List EnrichedMatch} (hlen : B.length ≤ 2)
    (hranks : ∀ (i : Nat) (mm : EnrichedMatch), B[i]? = some mm → mm.match_rank = i + 1) :
    RanksOK B := by
  intro mm hmm
  obtain ⟨i, hi, hget⟩ := List.getElem_of_mem hmm
  have hsome : B[i]? = some mm := by
    rw [List.getElem?_eq_getElem hi, hget]
  have := hranks i mm hsome
  omega

theorem block_rank2OidsOK {B : List EnrichedMatch} (hlen : B.length ≤ 2)
    (hranks : ∀ (i : Nat) (mm : EnrichedMatch), B[i]? = some mm → mm.match_rank = i + 1) :
    Rank2OidsOK B := by
  rcases block_shape B hlen hranks with rfl | ⟨a, rfl, _⟩ | ⟨a, b, rfl, hra, _⟩
  · exact List.Pairwise.nil
  · exact List.pairwise_singleton _ _
  · refine List.Pairwise.cons ?_ (List.pairwise_singleton _ _)
    intro b' hb' h2 _
    rw [List.mem_singleton] at hb'
    rw [hra] at h2
    cases h2

/-- The counters invariant is preserved through the whole main loop, for any
candidate map. -/
theorem mainLoop_countsOK (uuid : Nat → String) :
    ∀ (es : List (String × List MatchCandidate)) (st : OptState),
      CountsOK st → CountsOK (es.foldl (processSoldier uuid) st)
  | [], _, h => h
  | e :: rest, st, h => by
    rw [List.foldl_cons]
    apply mainLoop_countsOK uuid rest
    obtain ⟨B, hB1, _, _, _, _, hB7⟩ := processSoldier_block uuid st e
    intro id
    rw [hB7 id, hB1, List.countP_append, h id]
    push_cast
    ring

/-- The pair-distinctness and rank-2-soldier-distinctness invariants hold
after the main loop, for entry lists with distinct keys and candidates
coherent with their key. -/
theorem mainLoop_global (uuid : Nat → String) :
    ∀ (es : List (String × List MatchCandidate)) (st : OptState),
      ((es.map Prod.fst).Nodup) →
      (∀ e ∈ es, ∀ c ∈ e.2, c.soldier.contact_id = e.1) →
      (∀ mm ∈ st.result, mm.soldier_external_id ∉ es.map Prod.fst) →
      PairsOK st.result → Rank2OidsOK st.result → RanksOK st.result →
      PairsOK (es.foldl (processSoldier uuid) st).result ∧
      Rank2OidsOK (es.foldl (processSoldier uuid) st).result ∧
      RanksOK (es.foldl (processSoldier uuid) st).result
  | [], _, _, _, _, hp, hr2, hrk => ⟨hp, hr2, hrk⟩
  | e :: rest, st, hkeys, hcoh, hsep, hp, hr2, hrk => by
    obtain ⟨B, hB1, hB2, hB3, hB4, hBprov, _⟩ := processSoldier_block uuid st e
    have hBoid : ∀ mm ∈ B, mm.soldier_external_id = e.1 := by
      intro mm hmm
      obtain ⟨c, hc, _, hoid⟩ := hBprov mm hmm
      rw [hoid]
      exact hcoh e (List.mem_cons_self e rest) c hc
    have hBlen : B.length ≤ 2 := by rw [hB2]; omega
    have hkey_head : e.1 ∈ (e :: rest).map Prod.fst :=
      List.mem_map.mpr ⟨e, List.mem_cons_self e rest, rfl⟩
    have hsep_old : ∀ mm ∈ st.result, mm.soldier_external_id ≠ e.1 := by
      intro mm hmm heq
      exact hsep mm hmm (by rw [heq]; exact hkey_head)
    rw [List.foldl_cons]
    apply mainLoop_global uuid rest
    · exact (List.nodup_cons.mp hkeys).2
    · exact fun e' he' => hcoh e' (List.mem_cons_of_mem e he')
    · intro mm hmm
      rw [hB1] at hmm
      rcases List.mem_append.mp hmm with hold | hnew
      · intro hbad
        exact hsep mm hold (List.mem_cons_of_mem _ hbad)
      · rw [hBoid mm hnew]
        exact (List.nodup_cons.mp hkeys).1
    · rw [hB1]
      unfold PairsOK
      rw [List.pairwise_append]
      refine ⟨hp, ?_, ?_⟩
      · have hpw : B.Pairwise fun a b =>
            a.student_external_id ≠ b.student_external_id :=
          (List.pairwise_map.mp hB3)
        exact hpw.imp fun hne hand => hne hand.1
      · intro a ha b hb hand
        exact hsep_old a ha (hand.2.trans (hBoid b hb))
    · rw [hB1]
      unfold Rank2OidsOK
      rw [List.pairwise_append]
      refine ⟨hr2, block_rank2OidsOK hBlen hB4, ?_⟩
      intro a ha b hb _ _ heq
      exact hsep_old a ha (heq.trans (hBoid b hb))
    · rw [hB1]
      intro mm hmm
      rcases List.mem_append.mp hmm with hold | hnew
      · exact hrk mm hold
      · exact block_ranksOK hBlen hB4 mm hnew

/-- The candidate map produced by findAllSecureMatches is coherent: every
candidate stored under a key carries that key as its soldier id. -/
theorem findAll_coherent (dscore : String → String → Int) (students : List LocalStudent)
    (soldiers : List LocalSoldier) :
    ∀ e ∈ findAllSecureMatches dscore students soldiers,
      ∀ c ∈ e.2, c.soldier.contact_id = e.1 := by
  intro e he c hc
  obtain ⟨so, _, h1, h2⟩ := findAll_mem dscore students soldiers he
  have h2' : e.2 = soldierCandidates dscore students so := h2
  rw [h2'] at hc
  unfold soldierCandidates at hc
  have hc1 := (List.perm_insertionSort scoreDesc _).mem_iff.mp hc
  have hc2 := List.mem_of_mem_filter hc1
  obtain ⟨stu, _, rfl⟩ := List.mem_map.mp hc2
  exact h1.symm

/-! ## Specification of the final-pass scan and step -/

/-- Specification of bestSwapScan: it returns either its incoming accumulator
or the position and live count of a rank-2 slot; the returned overload never
decreases and dominates the live count of every rank-2 holder in the scanned
list. -/
theorem bestSwapScan_spec (counts : String → Int) :
    ∀ (ms : List EnrichedMatch) (i0 : Nat) (bi bo : Int),
      (((bestSwapScan counts ms i0 bi bo).1 = bi ∧
          (bestSwapScan counts ms i0 bi bo).2 = bo) ∨
        ∃ (j : Nat) (mm : EnrichedMatch), ms[j]? = some mm ∧ mm.match_rank = 2 ∧
          (bestSwapScan counts ms i0 bi bo).1 = Int.ofNat (i0 + j) ∧
          (bestSwapScan counts ms i0 bi bo).2 = counts mm.student_external_id) ∧
      bo ≤ (bestSwapScan counts ms i0 bi bo).2 ∧
      (∀ (j : Nat) (mm : EnrichedMatch), ms[j]? = some mm → mm.match_rank = 2 →
        counts mm.student_external_id ≤ (bestSwapScan counts ms i0 bi bo).2)
  | [], i0, bi, bo => by
    refine ⟨Or.inl ⟨rfl, rfl⟩, le_refl bo, ?_⟩
    intro j mm hj
    rw [List.getElem?_nil] at hj
    cases hj
  | m :: rest, i0, bi, bo => by
    simp only [bestSwapScan]
    by_cases hr : m.match_rank ≠ 2
    · simp only [if_pos hr]
      obtain ⟨ha, hb, hc⟩ := bestSwapScan_spec counts rest (i0 + 1) bi bo
      refine ⟨?_, hb, ?_⟩
      · rcases ha with h | ⟨j, mm, hj, hmm2, hidx, hval⟩
        · exact Or.inl h
        · exact Or.inr ⟨j + 1, mm, by rwa [List.getElem?_cons_succ], hmm2,
            by rwa [show i0 + 1 + j = i0 + (j + 1) by omega] at hidx, hval⟩
      · intro j mm hj hmm2
        cases j with
        | zero =>
          rw [List.getElem?_cons_zero] at hj
          cases hj
          exact absurd hmm2 hr
        | succ j' =>
          rw [List.getElem?_cons_succ] at hj
          exact hc j' mm hj hmm2
    · simp only [if_neg hr]
      push_neg at hr
      by_cases hlt : bo < counts m.student_external_id
      · simp only [if_pos hlt]
        obtain ⟨ha, hb, hc⟩ := bestSwapScan_spec counts rest (i0 + 1) (Int.ofNat i0)
          (counts m.student_external_id)
        refine ⟨?_, le_trans (le_of_lt hlt) hb, ?_⟩
        · rcases ha with ⟨h1, h2⟩ | ⟨j, mm, hj, hmm2, hidx, hval⟩
          · exact Or.inr ⟨0, m, List.getElem?_cons_zero, hr, by rw [h1, Nat.add_zero], h2⟩
          · exact Or.inr ⟨j + 1, mm, by rwa [List.getElem?_cons_succ], hmm2,
              by rwa [show i0 + 1 + j = i0 + (j + 1) by omega] at hidx, hval⟩
        · intro j mm hj hmm2
          cases j with
          | zero =>
            rw [List.getElem?_cons_zero] at hj
            cases hj
            exact hb
          | succ j' =>
            rw [List.getElem?_cons_succ] at hj
            exact hc j' mm hj hmm2
      · simp only [if_neg hlt]
        obtain ⟨ha, hb, hc⟩ := bestSwapScan_spec counts rest (i0 + 1) bi bo
        refine ⟨?_, hb, ?_⟩
        · rcases ha with h | ⟨j, mm, hj, hmm2, hidx, hval⟩
          · exact Or.inl h
          · exact Or.inr ⟨j + 1, mm, by rwa [List.getElem?_cons_succ], hmm2,
              by rwa [show i0 + 1 + j = i0 + (j + 1) by omega] at hidx, hval⟩
        · intro j mm hj hmm2
          cases j with
          | zero =>
            rw [List.getElem?_cons_zero] at hj
            cases hj
            omega
          | succ j' =>
            rw [List.getElem?_cons_succ] at hj
            exact hc j' mm hj hmm2

/-- Case analysis of one final-pass iteration: either nothing changes, or
exactly one rank-2 slot — one whose holder is most overloaded with a live
count above 1 — is replaced in place by a fresh rank-2 match for the unused
student with the same soldier, and only the unused student's counter is
bumped. -/
theorem rebalanceStep_cases (dscore : String → String → Int) (uuid : Nat → String)
    (st : OptState) (u : LocalStudent) :
    rebalanceStep dscore uuid st u = st ∨
    ∃ (i : Nat) (m : EnrichedMatch), st.result[i]? = some m ∧ m.match_rank = 2 ∧
      1 < st.counts m.student_external_id ∧
      (∀ (j : Nat) (m' : EnrichedMatch), st.result[j]? = some m' → m'.match_rank = 2 →
        st.counts m'.student_external_id ≤ st.counts m.student_external_id) ∧
      ∃ nm : EnrichedMatch, nm.match_rank = 2 ∧
        nm.student_external_id = u.contact_id ∧
        nm.soldier_external_id = m.soldier_external_id ∧
        (rebalanceStep dscore uuid st u).result = st.result.set i nm ∧
        (rebalanceStep dscore uuid st u).counts = bumpCount st.counts u.contact_id := by
  obtain ⟨ha, hb, hc⟩ := bestSwapScan_spec st.counts st.result 0 (-1) 0
  by_cases hcond : 0 ≤ (bestSwapScan st.counts st.result 0 (-1) 0).1 ∧
      1 < (bestSwapScan st.counts st.result 0 (-1) 0).2
  · rcases ha with ⟨h1, _⟩ | ⟨j, mm, hj, hmm2, hidx, hval⟩
    · exfalso
      rw [h1] at hcond
      omega
    · have htn : (bestSwapScan st.counts st.result 0 (-1) 0).1.toNat = j := by
        rw [hidx]
        simp
      right
      refine ⟨j, mm, hj, hmm2, hval ▸ hcond.2, ?_, ?_⟩
      · intro j' m' hj' hm'2
        rw [hval] at hc
        exact hc j' m' hj' hm'2
      · refine ⟨{ id := uuid st.nextId
                  student_external_id := u.contact_id
                  soldier_external_id := mm.soldier_external_id
                  confidence_score := (calculateSecureMatch dscore u
                    { contact_id := mm.soldier_external_id
                      gender := mm.soldier.gender
                      city := mm.soldier.city
                      city_code := mm.soldier.city_code
                      region := mm.soldier.region
                      origin_country := mm.soldier.origin_country
                      mother_tongue := mm.soldier.mother_tongue
                      mother_tongue_code := mm.soldier.mother_tongue_code
                      language_preference := mm.soldier.language_preference
                      volunteer_gender_preference := mm.soldier.volunteer_gender_preference
                      soldier_status := mm.soldier.soldier_status
                      has_special_requests := mm.soldier.has_special_requests }).score
                  match_rank := 2
                  match_criteria := (calculateSecureMatch dscore u
                    { contact_id := mm.soldier_external_id
                      gender := mm.soldier.gender
                      city := mm.soldier.city
                      city_code := mm.soldier.city_code
                      region := mm.soldier.region
                      origin_country := mm.soldier.origin_country
                      mother_tongue := mm.soldier.mother_tongue
                      mother_tongue_code := mm.soldier.mother_tongue_code
                      language_preference := mm.soldier.language_preference
                      volunteer_gender_preference := mm.soldier.volunteer_gender_preference
                      soldier_status := mm.soldier.soldier_status
                      has_special_requests := mm.soldier.has_special_requests }).criteria
                  status := "suggested"
                  student := u
                  soldier := mm.soldier }, rfl, rfl, rfl, ?_, ?_⟩
        · simp only [rebalanceStep]
          rw [if_pos hcond, htn, hj]
        · simp only [rebalanceStep]
          rw [if_pos hcond, htn, hj]
  · left
    simp only [rebalanceStep]
    rw [if_neg hcond]

/-! ## Frame properties of the final pass -/

/-- Frame relation between the pass-start assignment list and the current
one: same length, rank-1 slots untouched, ranks and soldier ids pointwise
unchanged. -/
def FrameOK (before0 cur : List EnrichedMatch) : Prop :=
  cur.length = before0.length ∧
  (∀ (i : Nat) (mm : EnrichedMatch), before0[i]? = some mm → mm.match_rank = 1 →
    cur[i]? = some mm) ∧
  (∀ i : Nat, (cur[i]?).map (fun m => m.match_rank) =
    (before0[i]?).map (fun m => m.match_rank)) ∧
  (∀ i : Nat, (cur[i]?).map (fun m => m.soldier_external_id) =
    (before0[i]?).map (fun m => m.soldier_external_id))

theorem frameOK_refl (l : List EnrichedMatch) : FrameOK l l :=
  ⟨rfl, fun _ _ h _ => h, fun _ => rfl, fun _ => rfl⟩

theorem lt_length_of_getElem?_eq_some {l : List EnrichedMatch} {i : Nat} {m : EnrichedMatch}
    (h : l[i]? = some m) : i < l.length := by
  by_contra hge
  rw [List.getElem?_eq_none (Nat.le_of_not_lt hge)] at h
  cases h

/-- A rank-1 entry of the current list was already there at pass start. -/
theorem frame_rank1_slot {before0 cur : List EnrichedMatch} (hF : FrameOK before0 cur) :
    ∀ (j : Nat) (mj : EnrichedMatch), cur[j]? = some mj → mj.match_rank = 1 →
      before0[j]? = some mj := by
  intro j mj hj hr1
  obtain ⟨_, hF1, hF2r, _⟩ := hF
  have h := hF2r j
  rw [hj] at h
  cases hb : before0[j]? with
  | none =>
    rw [hb] at h
    cases h
  | some mj' =>
    rw [hb] at h
    simp only [Option.map_some'] at h
    have hr' : mj'.match_rank = 1 := by
      have := (Option.some.injEq _ _).mp h
      omega
    have h2 := hF1 j mj' hb hr'
    rw [hj] at h2
    injection h2 with h3
    rw [h3]

/-- One rebalance step preserves the frame relation. -/
theorem rebalanceStep_frameOK (dscore : String → String → Int) (uuid : Nat → String)
    (st : OptState) (u : LocalStudent) (before0 : List EnrichedMatch)
    (hF : FrameOK before0 st.result) :
    FrameOK before0 (rebalanceStep dscore uuid st u).result := by
  obtain ⟨hlen, hF1, hF2r, hF2o⟩ := hF
  rcases rebalanceStep_cases dscore uuid st u with hid |
    ⟨i, m, hi, hm2, _, _, nm, hnm2, _, hnmoid, hres, _⟩
  · rw [hid]
    exact ⟨hlen, hF1, hF2r, hF2o⟩
  · have hilen : i < st.result.length := lt_length_of_getElem?_eq_some hi
    rw [hres]
    refine ⟨by rw [List.length_set]; exact hlen, ?_, ?_, ?_⟩
    · intro i' mm h0 h1r
      by_cases hii : i = i'
      · subst hii
        exfalso
        have h := hF2r i
        rw [hi, h0] at h
        simp only [Option.map_some'] at h
        have : m.match_rank = mm.match_rank := (Option.some.injEq _ _).mp h
        omega
      · rw [List.getElem?_set_ne hii]
        exact hF1 i' mm h0 h1r
    · intro i'
      by_cases hii : i = i'
      · subst hii
        rw [List.getElem?_set_self hilen]
        rw [← hF2r i, hi]
        simp only [Option.map_some']
        rw [hnm2, hm2]
      · rw [List.getElem?_set_ne hii]
        exact hF2r i'
    · intro i'
      by_cases hii : i = i'
      · subst hii
        rw [List.getElem?_set_self hilen]
        rw [← hF2o i, hi]
        simp only [Option.map_some']
        rw [hnmoid]
      · rw [List.getElem?_set_ne hii]
        exact hF2o i'

/-- The whole final-pass fold preserves the frame relation. -/
theorem foldl_rebalance_frameOK (dscore : String → String → Int) (uuid : Nat → String) :
    ∀ (us : List LocalStudent) (st : OptState) (before0 : List EnrichedMatch),
      FrameOK before0 st.result →
      FrameOK before0 (us.foldl (rebalanceStep dscore uuid) st).result
  | [], _, _, h => h
  | u :: rest, st, before0, h => by
    rw [List.foldl_cons]
    exact foldl_rebalance_frameOK dscore uuid rest _ before0
      (rebalanceStep_frameOK dscore uuid st u before0 h)

/-- The final pass keeps the frame relation with its own input. -/
theorem optimizeFinalPass_frameOK (dscore : String → String → Int) (uuid : Nat → String)
    (students : List LocalStudent) (st : OptState) :
    FrameOK st.result (optimizeFinalPass dscore uuid students st).result := by
  have : optimizeFinalPass dscore uuid students st =
      (students.filter (fun s =>
        !(st.result.map (fun m => m.student_external_id)).contains s.contact_id)).foldl
        (rebalanceStep dscore uuid) st := rfl
  rw [this]
  exact foldl_rebalance_frameOK dscore uuid _ st st.result (frameOK_refl _)

/-! ## Pair-distinctness and student-coverage through the final pass -/

/-- Index form of PairsOK, stable under in-place updates. -/
def PairsIdx (l : List EnrichedMatch) : Prop :=
  ∀ (i j : Nat) (mi mj : EnrichedMatch), i ≠ j → l[i]? = some mi → l[j]? = some mj →
    ¬(mi.student_external_id = mj.student_external_id ∧
      mi.soldier_external_id = mj.soldier_external_id)

/-- Index form of Rank2OidsOK. -/
def R2Idx (l : List EnrichedMatch) : Prop :=
  ∀ (i j : Nat) (mi mj : EnrichedMatch), i ≠ j → l[i]? = some mi → l[j]? = some mj →
    mi.match_rank = 2 → mj.match_rank = 2 →
    mi.soldier_external_id ≠ mj.soldier_external_id

theorem getElem_of_getElem?_eq_some {l : List EnrichedMatch} {i : Nat} {m : EnrichedMatch}
    (h : l[i]? = some m) : ∃ hi : i < l.length, l[i] = m := by
  have hil : i < l.length := lt_length_of_getElem?_eq_some h
  refine ⟨hil, ?_⟩
  have := List.getElem?_eq_getElem hil
  rw [h] at this
  exact ((Option.some.injEq _ _).mp this).symm

theorem pairsIdx_of_pairsOK {l : List EnrichedMatch} (h : PairsOK l) : PairsIdx l := by
  intro i j mi mj hne hgi hgj
  obtain ⟨hil, hgi'⟩ := getElem_of_getElem?_eq_some hgi
  obtain ⟨hjl, hgj'⟩ := getElem_of_getElem?_eq_some hgj
  have hpw := List.pairwise_iff_getElem.mp h
  rcases Nat.lt_or_ge i j with hij | hij
  · have := hpw i j hil hjl hij
    rw [hgi', hgj'] at this
    exact this
  · have hji : j < i := Nat.lt_of_le_of_ne hij fun hh => hne hh.symm
    have := hpw j i hjl hil hji
    rw [hgi', hgj'] at this
    rintro ⟨hs, ho⟩
    exact this ⟨hs.symm, ho.symm⟩

theorem pairsOK_of_pairsIdx {l : List EnrichedMatch} (h : PairsIdx l) : PairsOK l := by
  apply List.pairwise_iff_getElem.mpr
  intro i j hil hjl hij
  exact h i j l[i] l[j] (Nat.ne_of_lt hij)
    (List.getElem?_eq_getElem hil) (List.getElem?_eq_getElem hjl)

theorem r2Idx_of_rank2OidsOK {l : List EnrichedMatch} (h : Rank2OidsOK l) : R2Idx l := by
  intro i j mi mj hne hgi hgj h2i h2j
  obtain ⟨hil, hgi'⟩ := getElem_of_getElem?_eq_some hgi
  obtain ⟨hjl, hgj'⟩ := getElem_of_getElem?_eq_some hgj
  have hpw := List.pairwise_iff_getElem.mp h
  rcases Nat.lt_or_ge i j with hij | hij
  · have := hpw i j hil hjl hij
    rw [hgi', hgj'] at this
    exact this h2i h2j
  · have hji : j < i := Nat.lt_of_le_of_ne hij fun hh => hne hh.symm
    have := hpw j i hjl hil hji
    rw [hgi', hgj'] at this
    exact (this h2j h2i).symm

/-- The pass-start entry behind any current slot has the same rank and
soldier id. -/
theorem frame_mirror {before0 cur : List EnrichedMatch} (hF : FrameOK before0 cur)
    {x : Nat} {mx : EnrichedMatch} (hx : cur[x]? = some mx) :
    ∃ bx : EnrichedMatch, before0[x]? = some bx ∧ bx.match_rank = mx.match_rank ∧
      bx.soldier_external_id = mx.soldier_external_id := by
  obtain ⟨_, _, hF2r, hF2o⟩ := hF
  have hr := hF2r x
  have ho := hF2o x
  rw [hx] at hr ho
  cases hb : before0[x]? with
  | none =>
    rw [hb] at hr
    cases hr
  | some bx =>
    rw [hb] at hr ho
    simp only [Option.map_some'] at hr ho
    exact ⟨bx, rfl, ((Option.some.injEq _ _).mp hr).symm, ((Option.some.injEq _ _).mp ho).symm⟩

theorem getElem?_eq_some_of_getElem {l : List EnrichedMatch} {i : Nat} {m : EnrichedMatch}
    (hi : i < l.length) (h : l[i] = m) : l[i]? = some m := by
  rw [List.getElem?_eq_getElem hi, h]

theorem ranksOK_of_frame {before0 cur : List EnrichedMatch} (hRanks : RanksOK before0)
    (hF : FrameOK before0 cur) : RanksOK cur := by
  intro mm hmm
  obtain ⟨x, hxl, hx⟩ := List.getElem_of_mem hmm
  obtain ⟨bx, hbx, hbr, _⟩ := frame_mirror hF (getElem?_eq_some_of_getElem hxl hx)
  rw [← hbr]
  exact hRanks bx (List.getElem?_mem hbx)

/-- Preservation of pair-distinctness, rank-1 counter semantics for pass-start
students, student-coverage monotonicity and student provenance through the
final-pass fold. -/
theorem foldl_rebalance_invariants (dscore : String → String → Int) (uuid : Nat → String) :
    ∀ (us : List LocalStudent) (st : OptState) (before0 : List EnrichedMatch)
      (allowed : List String),
      RanksOK before0 →
      R2Idx before0 →
      (∀ u ∈ us, u.contact_id ∉ before0.map fun m => m.student_external_id) →
      (∀ u ∈ us, u.contact_id ∈ allowed) →
      FrameOK before0 st.result →
      PairsIdx st.result →
      (∀ id, id ∈ (before0.map fun m => m.student_external_id) →
        st.counts id = ((before0.countP fun mm =>
          mm.student_external_id = id ∧ mm.match_rank = 1) : Int)) →
      (∀ id, id ∈ (before0.map fun m => m.student_external_id) →
        id ∈ st.result.map fun m => m.student_external_id) →
      (∀ id, id ∈ (st.result.map fun m => m.student_external_id) →
        id ∈ (before0.map fun m => m.student_external_id) ∨ id ∈ allowed) →
      PairsIdx (us.foldl (rebalanceStep dscore uuid) st).result ∧
      (∀ id, id ∈ (before0.map fun m => m.student_external_id) →
        id ∈ (us.foldl (rebalanceStep dscore uuid) st).result.map
          fun m => m.student_external_id) ∧
      (∀ id, id ∈ ((us.foldl (rebalanceStep dscore uuid) st).result.map
          fun m => m.student_external_id) →
        id ∈ (before0.map fun m => m.student_external_id) ∨ id ∈ allowed)
  | [], st, before0, allowed, _, _, _, _, _, hP, _, hM, hV => ⟨hP, hM, hV⟩
  | u :: rest, st, before0, allowed, hRanks, hR2, hus1, hus2, hF, hP, hC, hM, hV => by
    have hu_not : u.contact_id ∉ before0.map fun m => m.student_external_id :=
      hus1 u (List.mem_cons_self u rest)
    have hu_alw : u.contact_id ∈ allowed := hus2 u (List.mem_cons_self u rest)
    have hus1' : ∀ u' ∈ rest, u'.contact_id ∉ before0.map fun m => m.student_external_id :=
      fun u' hu' => hus1 u' (List.mem_cons_of_mem u hu')
    have hus2' : ∀ u' ∈ rest, u'.contact_id ∈ allowed :=
      fun u' hu' => hus2 u' (List.mem_cons_of_mem u hu')
    rw [List.foldl_cons]
    rcases rebalanceStep_cases dscore uuid st u with hid |
      ⟨i, m, hi, hm2, hov, _, nm, hnm2, hnmsid, hnmoid, hres, hcnt⟩
    · rw [hid]
      exact foldl_rebalance_invariants dscore uuid rest st before0 allowed hRanks hR2
        hus1' hus2' hF hP hC hM hV
    · have hilen : i < st.result.length := lt_length_of_getElem?_eq_some hi
      have hF' : FrameOK before0 (rebalanceStep dscore uuid st u).result :=
        rebalanceStep_frameOK dscore uuid st u before0 hF
      have hcur_ranks : RanksOK st.result := ranksOK_of_frame hRanks hF
      have hP' : PairsIdx (rebalanceStep dscore uuid st u).result := by
        rw [hres]
        intro i' j' mi mj hne hgi hgj
        by_cases hii : i = i'
        · subst hii
          rw [List.getElem?_set_self hilen] at hgi
          have hmi : nm = mi := (Option.some.injEq _ _).mp hgi
          subst hmi
          rw [List.getElem?_set_ne hne] at hgj
          rintro ⟨hs, ho⟩
          rcases hcur_ranks mj (List.getElem?_mem hgj) with h1r | h2r
          · have hb := frame_rank1_slot hF j' mj hgj h1r
            have hmem : mj.student_external_id ∈
                before0.map fun m => m.student_external_id :=
              List.mem_map_of_mem _ (List.getElem?_mem hb)
            rw [hnmsid] at hs
            rw [← hs] at hmem
            exact hu_not hmem
          · obtain ⟨bi0, hbi0, hbi0r, hbi0o⟩ := frame_mirror hF hi
            obtain ⟨bj0, hbj0, hbj0r, hbj0o⟩ := frame_mirror hF hgj
            have h2i : bi0.match_rank = 2 := by rw [hbi0r, hm2]
            have h2j : bj0.match_rank = 2 := by rw [hbj0r, h2r]
            apply hR2 i j' bi0 bj0 hne hbi0 hbj0 h2i h2j
            rw [hbi0o, hbj0o, ← hnmoid]
            exact ho
        · by_cases hij : i = j'
          · subst hij
            rw [List.getElem?_set_self hilen] at hgj
            have hmj : nm = mj := (Option.some.injEq _ _).mp hgj
            subst hmj
            rw [List.getElem?_set_ne hii] at hgi
            rintro ⟨hs, ho⟩
            rcases hcur_ranks mi (List.getElem?_mem hgi) with h1r | h2r
            · have hb := frame_rank1_slot hF i' mi hgi h1r
              have hmem : mi.student_external_id ∈
                  before0.map fun m => m.student_external_id :=
                List.mem_map_of_mem _ (List.getElem?_mem hb)
              rw [hnmsid] at hs
              rw [hs] at hmem
              exact hu_not hmem
            · obtain ⟨bi0, hbi0, hbi0r, hbi0o⟩ := frame_mirror hF hi
              obtain ⟨bj0, hbj0, hbj0r, hbj0o⟩ := frame_mirror hF hgi
              have h2i : bi0.match_rank = 2 := by rw [hbi0r, hm2]
              have h2j : bj0.match_rank = 2 := by rw [hbj0r, h2r]
              apply hR2 i' i bj0 bi0 (fun hh => hii hh.symm) hbj0 hbi0 h2j h2i
              rw [hbi0o, hbj0o, ← hnmoid]
              exact ho
          · rw [List.getElem?_set_ne hii] at hgi
            rw [List.getElem?_set_ne hij] at hgj
            exact hP i' j' mi mj hne hgi hgj
      have hC' : ∀ id, id ∈ (before0.map fun m => m.student_external_id) →
          (rebalanceStep dscore uuid st u).counts id =
            ((before0.countP fun mm =>
              mm.student_external_id = id ∧ mm.match_rank = 1) : Int) := by
        intro id hmem
        rw [hcnt]
        unfold bumpCount
        have hne : ¬(id = u.contact_id) := by
          intro heq
          rw [heq] at hmem
          exact hu_not hmem
        rw [if_neg hne]
        exact hC id hmem
      have hM' : ∀ id, id ∈ (before0.map fun m => m.student_external_id) →
          id ∈ (rebalanceStep dscore uuid st u).result.map
            fun m => m.student_external_id := by
        intro id hmem
        rw [hres]
        obtain ⟨mm, hmm_mem, hmm_sid⟩ := List.mem_map.mp (hM id hmem)
        obtain ⟨j, hjl, hjget⟩ := List.getElem_of_mem hmm_mem
        have hj2 : st.result[j]? = some mm := getElem?_eq_some_of_getElem hjl hjget
        by_cases hji : i = j
        · subst hji
          rw [hi] at hj2
          have hmmm : m = mm := (Option.some.injEq _ _).mp hj2
          subst hmmm
          rw [hmm_sid] at hov
          rw [hC id hmem] at hov
          have hpos : 0 < before0.countP fun mm =>
              mm.student_external_id = id ∧ mm.match_rank = 1 := by omega
          obtain ⟨mmm, hmmm_mem, hmmm_p⟩ := List.countP_pos_iff.mp hpos
          obtain ⟨hsid3, hrank3⟩ := of_decide_eq_true hmmm_p
          obtain ⟨j2, hj2l, hj2get⟩ := List.getElem_of_mem hmmm_mem
          have hj2b : before0[j2]? = some mmm := getElem?_eq_some_of_getElem hj2l hj2get
          have hcur : st.result[j2]? = some mmm := hF.2.1 j2 mmm hj2b hrank3
          have hne2 : i ≠ j2 := by
            intro hh
            subst hh
            rw [hi] at hcur
            have : m = mmm := (Option.some.injEq _ _).mp hcur
            rw [← this] at hrank3
            rw [hm2] at hrank3
            cases hrank3
          have hset : (st.result.set i nm)[j2]? = some mmm := by
            rw [List.getElem?_set_ne hne2]
            exact hcur
          exact List.mem_map.mpr ⟨mmm, List.getElem?_mem hset, hsid3⟩
        · have hset : (st.result.set i nm)[j]? = some mm := by
            rw [List.getElem?_set_ne hji]
            exact hj2
          exact List.mem_map.mpr ⟨mm, List.getElem?_mem hset, hmm_sid⟩
      have hV' : ∀ id, id ∈ ((rebalanceStep dscore uuid st u).result.map
          fun m => m.student_external_id) →
          id ∈ (before0.map fun m => m.student_external_id) ∨ id ∈ allowed := by
        intro id hidmem
        rw [hres] at hidmem
        obtain ⟨mm, hmm_mem, hmm_sid⟩ := List.mem_map.mp hidmem
        obtain ⟨j, hjl, hjget⟩ := List.getElem_of_mem hmm_mem
        have hj2 : (st.result.set i nm)[j]? = some mm :=
          getElem?_eq_some_of_getElem hjl hjget
        by_cases hji : i = j
        · subst hji
          rw [List.getElem?_set_self hilen] at hj2
          have : nm = mm := (Option.some.injEq _ _).mp hj2
          right
          rw [← hmm_sid, ← this, hnmsid]
          exact hu_alw
        · rw [List.getElem?_set_ne hji] at hj2
          exact hV id (List.mem_map.mpr ⟨mm, List.getElem?_mem hj2, hmm_sid⟩)
      exact foldl_rebalance_invariants dscore uuid rest (rebalanceStep dscore uuid st u)
        before0 allowed hRanks hR2 hus1' hus2' hF' hP' hC' hM' hV'

/-! ## Transfer lemmas and pipeline facts -/

/-- A predicate reading only rank and soldier id counts equally across the
frame relation. -/
theorem countP_eq_of_frame (p : EnrichedMatch → Bool)
    (hp : ∀ a b : EnrichedMatch, a.match_rank = b.match_rank →
      a.soldier_external_id = b.soldier_external_id → p a = p b) :
    ∀ (before0 cur : List EnrichedMatch), FrameOK before0 cur →
      cur.countP p = before0.countP p
  | [], cur, hF => by
    have hlen : cur.length = 0 := hF.1
    rw [List.eq_nil_of_length_eq_zero hlen]
  | b :: bt, cur, hF => by
    cases cur with
    | nil =>
      have hlen := hF.1
      simp at hlen
    | cons c ct =>
      obtain ⟨hlen, hF1, hF2r, hF2o⟩ := hF
      have hhead_r : c.match_rank = b.match_rank := by
        have := hF2r 0
        simp only [List.getElem?_cons_zero, Option.map_some'] at this
        exact (Option.some.injEq _ _).mp this
      have hhead_o : c.soldier_external_id = b.soldier_external_id := by
        have := hF2o 0
        simp only [List.getElem?_cons_zero, Option.map_some'] at this
        exact (Option.some.injEq _ _).mp this
      have htail : FrameOK bt ct := by
        refine ⟨?_, ?_, ?_, ?_⟩
        · simp only [List.length_cons] at hlen
          omega
        · intro i mm h0 h1
          have := hF1 (i + 1) mm (by rwa [List.getElem?_cons_succ]) h1
          rwa [List.getElem?_cons_succ] at this
        · intro i
          have := hF2r (i + 1)
          rwa [List.getElem?_cons_succ, List.getElem?_cons_succ] at this
        · intro i
          have := hF2o (i + 1)
          rwa [List.getElem?_cons_succ, List.getElem?_cons_succ] at this
      rw [List.countP_cons, List.countP_cons,
        countP_eq_of_frame p hp bt ct htail, hp c b hhead_r hhead_o]

/-- The main-loop invariants instantiated at the candidate map the pipeline
actually passes to the allocator. -/
theorem pipeline_mainLoop_facts (dscore : String → String → Int) (uuid : Nat → String)
    (students : List LocalStudent) (soldiers : List LocalSoldier) :
    PairsOK (optimizeMainLoop uuid (findAllSecureMatches dscore students soldiers)
      students).result ∧
    Rank2OidsOK (optimizeMainLoop uuid (findAllSecureMatches dscore students soldiers)
      students).result ∧
    RanksOK (optimizeMainLoop uuid (findAllSecureMatches dscore students soldiers)
      students).result := by
  have hperm : (List.insertionSort soldierOptionsRel
      (findAllSecureMatches dscore students soldiers)).Perm
      (findAllSecureMatches dscore students soldiers) :=
    List.perm_insertionSort _ _
  have hkeys : ((List.insertionSort soldierOptionsRel
      (findAllSecureMatches dscore students soldiers)).map Prod.fst).Nodup :=
    (hperm.map Prod.fst).nodup_iff.mpr (findAll_keys_nodup dscore students soldiers)
  have hcoh : ∀ e ∈ List.insertionSort soldierOptionsRel
      (findAllSecureMatches dscore students soldiers), ∀ c ∈ e.2,
      c.soldier.contact_id = e.1 :=
    fun e he => findAll_coherent dscore students soldiers e (hperm.mem_iff.mp he)
  exact mainLoop_global uuid _ { result := [], counts := fun _ => 0, nextId := 0 }
    hkeys hcoh (fun mm hmm => absurd hmm (List.not_mem_nil mm))
    List.Pairwise.nil List.Pairwise.nil (fun mm hmm => absurd hmm (List.not_mem_nil mm))

/-- The live counters after the main loop record the rank-1 counts, for any
candidate map. -/
theorem optimizeMainLoop_countsOK (uuid : Nat → String)
    (m : List (String × List MatchCandidate)) (students : List LocalStudent) :
    CountsOK (optimizeMainLoop uuid m students) :=
  mainLoop_countsOK uuid _ { result := [], counts := fun _ => 0, nextId := 0 }
    (fun id => by simp)

/-- Unused students selected by the final pass are absent from the pass-start
assignment list and drawn from the student pool. -/
theorem unused_students_facts (students : List LocalStudent)
    (ids : List String) :
    (∀ u ∈ students.filter (fun s => !ids.contains s.contact_id),
      u.contact_id ∉ ids) ∧
    (∀ u ∈ students.filter (fun s => !ids.contains s.contact_id),
      u.contact_id ∈ students.map fun s => s.contact_id) := by
  constructor
  · intro u hu hmem
    have hp := (List.mem_filter.mp hu).2
    simp only [Bool.not_eq_true'] at hp
    have hp' : List.elem u.contact_id ids = false := hp
    rw [List.elem_eq_true_of_mem hmem] at hp'
    cases hp'
  · intro u hu
    exact List.mem_map_of_mem _ (List.mem_filter.mp hu).1

/-- The final-pass invariants instantiated at the pipeline's own inputs. -/
theorem pipeline_finalPass_invariants (dscore : String → String → Int) (uuid : Nat → String)
    (students : List LocalStudent) (soldiers : List LocalSoldier) :
    PairsIdx (optimizeSecureMatches dscore uuid
      (findAllSecureMatches dscore students soldiers) students) ∧
    (∀ id, id ∈ ((optimizeMainLoop uuid (findAllSecureMatches dscore students soldiers)
        students).result.map fun m => m.student_external_id) →
      id ∈ ((optimizeSecureMatches dscore uuid
        (findAllSecureMatches dscore students soldiers) students).map
          fun m => m.student_external_id)) ∧
    (∀ id, id ∈ ((optimizeSecureMatches dscore uuid
        (findAllSecureMatches dscore students soldiers) students).map
          fun m => m.student_external_id) →
      id ∈ ((optimizeMainLoop uuid (findAllSecureMatches dscore students soldiers)
        students).result.map fun m => m.student_external_id) ∨
      id ∈ (students.map fun s => s.contact_id)) := by
  obtain ⟨hPairs, hR2, hRanks⟩ := pipeline_mainLoop_facts dscore uuid students soldiers
  have hCounts := optimizeMainLoop_countsOK uuid
    (findAllSecureMatches dscore students soldiers) students
  obtain ⟨hus1, hus2⟩ := unused_students_facts students
    ((optimizeMainLoop uuid (findAllSecureMatches dscore students soldiers)
      students).result.map fun m => m.student_external_id)
  exact foldl_rebalance_invariants dscore uuid _ _ _ _
    hRanks (r2Idx_of_rank2OidsOK hR2) hus1 hus2 (frameOK_refl _)
    (pairsIdx_of_pairsOK hPairs) (fun id _ => hCounts id) (fun id h => h)
    (fun id h => Or.inl h)

/-- C5: the assignment list returned by a run never contains two assignments
with the same (student id, soldier id) pair — in particular no soldier holds
the same student at both ranks. -/
theorem claim_C5_no_duplicate_pairs (dscore : String → String → Int) (uuid : Nat → String)
    (students : List LocalStudent) (soldiers : List LocalSoldier) :
    (runSecureMatchingAlgorithm dscore uuid students soldiers).1.Pairwise
      (fun a b => ¬(a.student_external_id = b.student_external_id ∧
        a.soldier_external_id = b.soldier_external_id)) := by
  have hopt := (pipeline_finalPass_invariants dscore uuid students soldiers).1
  have hperm : (List.insertionSort confidenceDesc
      (optimizeSecureMatches dscore uuid (findAllSecureMatches dscore students soldiers)
        students)).Perm
      (optimizeSecureMatches dscore uuid (findAllSecureMatches dscore students soldiers)
        students) :=
    List.perm_insertionSort _ _
  have hsym : ∀ {x y : EnrichedMatch},
      (fun a b : EnrichedMatch => ¬(a.student_external_id = b.student_external_id ∧
        a.soldier_external_id = b.soldier_external_id)) x y →
      (fun a b : EnrichedMatch => ¬(a.student_external_id = b.student_external_id ∧
        a.soldier_external_id = b.soldier_external_id)) y x := by
    intro x y h ⟨hs, ho⟩
    exact h ⟨hs.symm, ho.symm⟩
  exact (List.Perm.pairwise_iff hsym hperm).mpr (pairsOK_of_pairsIdx hopt)

/-- C10: the rebalancing pass never shrinks the set of students holding an
assignment — every student id present after the main loop is still present
after the pass — and any newly present id belongs to the student pool (a
previously-unused student swapped in). -/
theorem claim_C10_rebalance_coverage (dscore : String → String → Int) (uuid : Nat → String)
    (students : List LocalStudent) (soldiers : List LocalSoldier) :
    (∀ id, id ∈ ((optimizeMainLoop uuid (findAllSecureMatches dscore students soldiers)
        students).result.map fun m => m.student_external_id) →
      id ∈ ((optimizeSecureMatches dscore uuid
        (findAllSecureMatches dscore students soldiers) students).map
          fun m => m.student_external_id)) ∧
    (∀ id, id ∈ ((optimizeSecureMatches dscore uuid
        (findAllSecureMatches dscore students soldiers) students).map
          fun m => m.student_external_id) →
      id ∈ ((optimizeMainLoop uuid (findAllSecureMatches dscore students soldiers)
        students).result.map fun m => m.student_external_id) ∨
      id ∈ (students.map fun s => s.contact_id)) :=
  ⟨(pipeline_finalPass_invariants dscore uuid students soldiers).2.1,
   (pipeline_finalPass_invariants dscore uuid students soldiers).2.2⟩

/-- Witness for C10 at a concrete run (two students, one soldier, so the
student holding rank 1 after the main loop survives the final pass). -/
theorem claim_C10_rebalance_coverage_witness :
    "stu-1" ∈ ((optimizeSecureMatches wDscore wUuidA
      (findAllSecureMatches wDscore [wStudent, wStudent2] [wSoldier])
      [wStudent, wStudent2]).map fun m => m.student_external_id) :=
  (claim_C10_rebalance_coverage wDscore wUuidA [wStudent, wStudent2] [wSoldier]).1
    "stu-1" (by decide)

/-- C6: optimizeSecureMatches is the main loop followed by one application of
the final pass; the pass preserves the list length, every rank-1 assignment
pointwise, and all ranks and soldier ids pointwise; and a single pass
iteration either changes nothing or replaces, in place, exactly one rank-2
slot — one whose holder's live count exceeds 1 and is maximal among all
rank-2 holders — with a fresh rank-2 match for the same soldier, bumping only
the unused student's counter. -/
theorem claim_C6_final_pass_frame (dscore : String → String → Int) (uuid : Nat → String)
    (students : List LocalStudent) (st : OptState) (u : LocalStudent) :
    (∀ (m : List (String × List MatchCandidate)) (sts : List LocalStudent),
      optimizeSecureMatches dscore uuid m sts =
        (optimizeFinalPass dscore uuid sts (optimizeMainLoop uuid m sts)).result) ∧
    (optimizeFinalPass dscore uuid students st).result.length = st.result.length ∧
    (∀ (i : Nat) (mm : EnrichedMatch), st.result[i]? = some mm → mm.match_rank = 1 →
      (optimizeFinalPass dscore uuid students st).result[i]? = some mm) ∧
    (∀ i : Nat, ((optimizeFinalPass dscore uuid students st).result[i]?).map
      (fun m => m.match_rank) = (st.result[i]?).map (fun m => m.match_rank)) ∧
    (∀ i : Nat, ((optimizeFinalPass dscore uuid students st).result[i]?).map
      (fun m => m.soldier_external_id) =
        (st.result[i]?).map (fun m => m.soldier_external_id)) ∧
    (rebalanceStep dscore uuid st u = st ∨
      ∃ (i : Nat) (m : EnrichedMatch), st.result[i]? = some m ∧ m.match_rank = 2 ∧
        1 < st.counts m.student_external_id ∧
        (∀ (j : Nat) (m' : EnrichedMatch), st.result[j]? = some m' → m'.match_rank = 2 →
          st.counts m'.student_external_id ≤ st.counts m.student_external_id) ∧
        ∃ nm : EnrichedMatch, nm.match_rank = 2 ∧
          nm.student_external_id = u.contact_id ∧
          nm.soldier_external_id = m.soldier_external_id ∧
          (rebalanceStep dscore uuid st u).result = st.result.set i nm ∧
          (rebalanceStep dscore uuid st u).counts = bumpCount st.counts u.contact_id) := by
  obtain ⟨hlen, hF1, hF2r, hF2o⟩ := optimizeFinalPass_frameOK dscore uuid students st
  exact ⟨fun _ _ => rfl, hlen, hF1, hF2r, hF2o, rebalanceStep_cases dscore uuid st u⟩

/-- Witness for C6: a concrete state with one rank-1 assignment keeps it
unchanged through the final pass. -/
theorem claim_C6_final_pass_frame_witness :
    (optimizeFinalPass wDscore wUuidA [wStudent2]
      { result := [mkMatch wUuidA 0 1 (calculateSecureMatch wDscore wStudent wSoldier)],
        counts := fun _ => 0, nextId := 1 }).result[0]? =
      some (mkMatch wUuidA 0 1 (calculateSecureMatch wDscore wStudent wSoldier)) :=
  (claim_C6_final_pass_frame wDscore wUuidA [wStudent2]
    { result := [mkMatch wUuidA 0 1 (calculateSecureMatch wDscore wStudent wSoldier)],
      counts := fun _ => 0, nextId := 1 } wStudent2).2.2.1 0
    (mkMatch wUuidA 0 1 (calculateSecureMatch wDscore wStudent wSoldier)) rfl rfl

/-- C1: a soldier whose candidate list holds at least two distinct students
ends the run with exactly two assignments, one rank-1 and one rank-2; with
exactly one distinct student it ends with a single rank-1 assignment; with an
empty candidate list it ends with none (and the run raises nothing — every
function involved is total). -/
theorem claim_C1_per_soldier_assignment_counts (dscore : String → String → Int)
    (uuid : Nat → String) (students : List LocalStudent) (soldiers : List LocalSoldier)
    (k : String) (cs : List MatchCandidate)
    (h : (k, cs) ∈ findAllSecureMatches dscore students soldiers) :
    (2 ≤ ((cs.map fun c => c.student.contact_id).toFinset).card →
      ((runSecureMatchingAlgorithm dscore uuid students soldiers).1.countP
        (fun mm => mm.soldier_external_id = k) = 2) ∧
      ((runSecureMatchingAlgorithm dscore uuid students soldiers).1.countP
        (fun mm => mm.soldier_external_id = k ∧ mm.match_rank = 1) = 1) ∧
      ((runSecureMatchingAlgorithm dscore uuid students soldiers).1.countP
        (fun mm => mm.soldier_external_id = k ∧ mm.match_rank = 2) = 1)) ∧
    (((cs.map fun c => c.student.contact_id).toFinset).card = 1 →
      ((runSecureMatchingAlgorithm dscore uuid students soldiers).1.countP
        (fun mm => mm.soldier_external_id = k) = 1) ∧
      ((runSecureMatchingAlgorithm dscore uuid students soldiers).1.countP
        (fun mm => mm.soldier_external_id = k ∧ mm.match_rank = 1) = 1) ∧
      ((runSecureMatchingAlgorithm dscore uuid students soldiers).1.countP
        (fun mm => mm.soldier_external_id = k ∧ mm.match_rank = 2) = 0)) ∧
    (cs = [] →
      (runSecureMatchingAlgorithm dscore uuid students soldiers).1.countP
        (fun mm => mm.soldier_external_id = k) = 0) := by
  have hperm_es : (List.insertionSort soldierOptionsRel
      (findAllSecureMatches dscore students soldiers)).Perm
      (findAllSecureMatches dscore students soldiers) :=
    List.perm_insertionSort _ _
  have hkeys : ((List.insertionSort soldierOptionsRel
      (findAllSecureMatches dscore students soldiers)).map Prod.fst).Nodup :=
    (hperm_es.map Prod.fst).nodup_iff.mpr (findAll_keys_nodup dscore students soldiers)
  have hcoh : ∀ e ∈ List.insertionSort soldierOptionsRel
      (findAllSecureMatches dscore students soldiers), ∀ c ∈ e.2,
      c.soldier.contact_id = e.1 :=
    fun e he => findAll_coherent dscore students soldiers e (hperm_es.mem_iff.mp he)
  obtain ⟨hc1, hc2, hc3⟩ := mainLoop_key_counts uuid _
    { result := [], counts := fun _ => 0, nextId := 0 } hkeys hcoh
    (fun mm hmm => absurd hmm (List.not_mem_nil mm)) k cs (hperm_es.mem_iff.mpr h)
  have key : ∀ (p : EnrichedMatch → Bool),
      (∀ a b : EnrichedMatch, a.match_rank = b.match_rank →
        a.soldier_external_id = b.soldier_external_id → p a = p b) →
      (runSecureMatchingAlgorithm dscore uuid students soldiers).1.countP p =
        ((List.insertionSort soldierOptionsRel
          (findAllSecureMatches dscore students soldiers)).foldl (processSoldier uuid)
          { result := [], counts := fun _ => 0, nextId := 0 }).result.countP p := by
    intro p hp
    have h1 : (runSecureMatchingAlgorithm dscore uuid students soldiers).1 =
        List.insertionSort confidenceDesc (optimizeSecureMatches dscore uuid
          (findAllSecureMatches dscore students soldiers) students) := rfl
    rw [h1, (List.perm_insertionSort confidenceDesc _).countP_eq p]
    exact countP_eq_of_frame p hp _ _
      (optimizeFinalPass_frameOK dscore uuid students
        (optimizeMainLoop uuid (findAllSecureMatches dscore students soldiers) students))
  refine ⟨?_, ?_, ?_⟩
  · intro hD
    refine ⟨?_, ?_, ?_⟩
    · rw [key _ (fun a b hr ho => by rw [ho]), hc1]
      omega
    · rw [key _ (fun a b hr ho => by rw [ho, hr]), hc2]
      omega
    · rw [key _ (fun a b hr ho => by rw [ho, hr]), hc3, if_pos hD]
  · intro hD
    refine ⟨?_, ?_, ?_⟩
    · rw [key _ (fun a b hr ho => by rw [ho]), hc1]
      omega
    · rw [key _ (fun a b hr ho => by rw [ho, hr]), hc2]
      omega
    · rw [key _ (fun a b hr ho => by rw [ho, hr]), hc3, if_neg (by omega)]
  · intro hnil
    subst hnil
    rw [key _ (fun a b hr ho => by rw [ho]), hc1]
    simp

/-- Witness for C1 at a concrete run with two distinct students and one
soldier: the soldier ends with a rank-1 and a rank-2 assignment. -/
theorem claim_C1_per_soldier_assignment_counts_witness :
    ((runSecureMatchingAlgorithm wDscore wUuidA [wStudent, wStudent2] [wSoldier]).1.countP
      (fun mm => mm.soldier_external_id = "sol-1") = 2) ∧
    ((runSecureMatchingAlgorithm wDscore wUuidA [wStudent, wStudent2] [wSoldier]).1.countP
      (fun mm => mm.soldier_external_id = "sol-1" ∧ mm.match_rank = 1) = 1) ∧
    ((runSecureMatchingAlgorithm wDscore wUuidA [wStudent, wStudent2] [wSoldier]).1.countP
      (fun mm => mm.soldier_external_id = "sol-1" ∧ mm.match_rank = 2) = 1) :=
  (claim_C1_per_soldier_assignment_counts wDscore wUuidA [wStudent, wStudent2] [wSoldier]
    "sol-1" (soldierCandidates wDscore [wStudent, wStudent2] wSoldier)
    (by decide)).1 (by decide)

end BeitHayal
